import Mathlib

/-!
Verification development for the crash-game round engine.

The embedding covers three layers of the source:
* `SHA256` / `Fair`: the provably-fair crash-point pipeline
  (HMAC-SHA256 over `seed ++ roundId`, hex digest, first 8 hex chars as an
  unsigned integer, inverse-exponential map, clamp), transcribed from
  `services/GameManager.js` (`calculateCrashPoint`, `hashSeed`) and the
  `POST /verify` route in `routes/gameRoutes.js`.
* `Engine`: the round state machine (`startNewRound`, `startGamePhase`,
  `updateMultiplier`, `crashGame`, `endRound`, `placeBet`, `cashOut`,
  `stop`) from `services/GameManager.js`, with timers made explicit and
  numeric values modelled over `ℚ`.
* `Price`: `CryptoService.getPrice` from `services/CryptoService.js`.
-/

set_option maxRecDepth 100000

namespace SHA256

/-- Bytes are naturals below 256; 32-bit words are naturals below `2 ^ 32`. -/
def wordMod : Nat := 2 ^ 32

/-- Right rotation of a 32-bit word. -/
def rotr (n x : Nat) : Nat := (x >>> n) ||| ((x <<< (32 - n)) % wordMod)

/-- Bitwise complement of a 32-bit word. -/
def compl32 (x : Nat) : Nat := x ^^^ 0xFFFFFFFF

def ch (x y z : Nat) : Nat := (x &&& y) ^^^ (compl32 x &&& z)

def maj (x y z : Nat) : Nat := (x &&& y) ^^^ (x &&& z) ^^^ (y &&& z)

def bigSigma0 (x : Nat) : Nat := rotr 2 x ^^^ rotr 13 x ^^^ rotr 22 x

def bigSigma1 (x : Nat) : Nat := rotr 6 x ^^^ rotr 11 x ^^^ rotr 25 x

def smallSigma0 (x : Nat) : Nat := rotr 7 x ^^^ rotr 18 x ^^^ (x >>> 3)

def smallSigma1 (x : Nat) : Nat := rotr 17 x ^^^ rotr 19 x ^^^ (x >>> 10)

/-- The 64 SHA-256 round constants. -/
def K : List Nat :=
  [0x428A2F98, 0x71374491, 0xB5C0FBCF, 0xE9B5DBA5,
   0x3956C25B, 0x59F111F1, 0x923F82A4, 0xAB1C5ED5,
   0xD807AA98, 0x12835B01, 0x243185BE, 0x550C7DC3,
   0x72BE5D74, 0x80DEB1FE, 0x9BDC06A7, 0xC19BF174,
   0xE49B69C1, 0xEFBE4786, 0x0FC19DC6, 0x240CA1CC,
   0x2DE92C6F, 0x4A7484AA, 0x5CB0A9DC, 0x76F988DA,
   0x983E5152, 0xA831C66D, 0xB00327C8, 0xBF597FC7,
   0xC6E00BF3, 0xD5A79147, 0x06CA6351, 0x14292967,
   0x27B70A85, 0x2E1B2138, 0x4D2C6DFC, 0x53380D13,
   0x650A7354, 0x766A0ABB, 0x81C2C92E, 0x92722C85,
   0xA2BFE8A1, 0xA81A664B, 0xC24B8B70, 0xC76C51A3,
   0xD192E819, 0xD6990624, 0xF40E3585, 0x106AA070,
   0x19A4C116, 0x1E376C08, 0x2748774C, 0x34B0BCB5,
   0x391C0CB3, 0x4ED8AA4A, 0x5B9CCA4F, 0x682E6FF3,
   0x748F82EE, 0x78A5636F, 0x84C87814, 0x8CC70208,
   0x90BEFFFA, 0xA4506CEB, 0xBEF9A3F7, 0xC67178F2]

/-- The eight 32-bit hash-state words. -/
structure Hash8 where
  a : Nat
  b : Nat
  c : Nat
  d : Nat
  e : Nat
  f : Nat
  g : Nat
  h : Nat
deriving DecidableEq

/-- SHA-256 initial hash value. -/
def initH : Hash8 :=
  ⟨0x6A09E667, 0xBB67AE85,
   0x3C6EF372, 0xA54FF53A,
   0x510E527F, 0x9B05688C,
   0x1F83D9AB, 0x5BE0CD19⟩

/-- One compression round, fed a pair (schedule word, round constant). -/
def roundStep (s : Hash8) (wk : Nat × Nat) : Hash8 :=
  let t1 := (s.h + bigSigma1 s.e + ch s.e s.f s.g + wk.2 + wk.1) % wordMod
  let t2 := (bigSigma0 s.a + maj s.a s.b s.c) % wordMod
  ⟨(t1 + t2) % wordMod, s.a, s.b, s.c, (s.d + t1) % wordMod, s.e, s.f, s.g⟩

/-- Extend a 16-word message schedule by `n` further words. -/
def extendSchedule (w : List Nat) : Nat → List Nat
  | 0 => w
  | n + 1 =>
    let l := w.length
    let nw := (smallSigma1 (w.getD (l - 2) 0) + w.getD (l - 7) 0 +
               smallSigma0 (w.getD (l - 15) 0) + w.getD (l - 16) 0) % wordMod
    extendSchedule (w ++ [nw]) n

/-- Read a list of bytes as one big-endian integer. -/
def beNum (l : List Nat) : Nat := l.foldl (fun a b => 256 * a + b) 0

/-- The sixteen 32-bit words of one 64-byte block. -/
def blockWords (block : List Nat) : List Nat :=
  (List.range 16).map (fun j => beNum ((block.drop (4 * j)).take 4))

/-- Process one 64-byte block. -/
def processBlock (h0 : Hash8) (block : List Nat) : Hash8 :=
  let w := extendSchedule (blockWords block) 48
  let s := (w.zip K).foldl roundStep h0
  ⟨(s.a + h0.a) % wordMod, (s.b + h0.b) % wordMod, (s.c + h0.c) % wordMod,
   (s.d + h0.d) % wordMod, (s.e + h0.e) % wordMod, (s.f + h0.f) % wordMod,
   (s.g + h0.g) % wordMod, (s.h + h0.h) % wordMod⟩

/-- The 8 big-endian length bytes of the padding. -/
def lenBytes (bitLen : Nat) : List Nat :=
  [(bitLen / 2 ^ 56) % 256, (bitLen / 2 ^ 48) % 256, (bitLen / 2 ^ 40) % 256,
   (bitLen / 2 ^ 32) % 256, (bitLen / 2 ^ 24) % 256, (bitLen / 2 ^ 16) % 256,
   (bitLen / 2 ^ 8) % 256, bitLen % 256]

/-- SHA-256 padding: `0x80`, zeros to 56 mod 64, then the bit length. -/
def pad (msg : List Nat) : List Nat :=
  msg ++ [0x80] ++ List.replicate ((119 - msg.length % 64) % 64) 0 ++
    lenBytes (8 * msg.length)

/-- Split the padded message into its 64-byte blocks. -/
def blocks (padded : List Nat) : List (List Nat) :=
  (List.range (padded.length / 64)).map
    (fun i => (padded.drop (64 * i)).take 64)

/-- The four big-endian bytes of a 32-bit word. -/
def wordBytes (w : Nat) : List Nat :=
  [(w / 2 ^ 24) % 256, (w / 2 ^ 16) % 256, (w / 2 ^ 8) % 256, w % 256]

/-- SHA-256 of a byte list, as a 32-byte list. -/
def sha256 (msg : List Nat) : List Nat :=
  let hf := (blocks (pad msg)).foldl processBlock initH
  wordBytes hf.a ++ wordBytes hf.b ++ wordBytes hf.c ++ wordBytes hf.d ++
    wordBytes hf.e ++ wordBytes hf.f ++ wordBytes hf.g ++ wordBytes hf.h

/-- HMAC-SHA256 (block size 64 bytes). -/
def hmacSha256 (key msg : List Nat) : List Nat :=
  let k0 := if 64 < key.length then sha256 key else key
  let kp := k0 ++ List.replicate (64 - k0.length) 0
  sha256 ((kp.map (· ^^^ 0x5c)) ++ sha256 ((kp.map (· ^^^ 0x36)) ++ msg))

/-- The bytes of an ASCII string (for ASCII text this is its UTF-8 bytes,
which is the encoding node's `crypto.update` applies to strings). -/
def strBytes (s : String) : List Nat := s.data.map Char.toNat

/-- Lowercase hex digit for a value below 16, as produced by
`digest('hex')`. -/
def hexDigitChar (n : Nat) : Char :=
  if n < 10 then Char.ofNat (48 + n) else Char.ofNat (87 + n)

/-- The two lowercase hex characters of one byte. -/
def byteHex (b : Nat) : List Char := [hexDigitChar (b / 16), hexDigitChar (b % 16)]

/-- The hex encoding of a byte list (the `digest('hex')` string, as a
character list). -/
def hexChars (bs : List Nat) : List Char := (bs.map byteHex).flatten

/-- Numeric value of one hex digit as `parseInt` reads it (lowercase). -/
def hexDigitVal (c : Char) : Nat :=
  if 48 ≤ c.toNat ∧ c.toNat ≤ 57 then c.toNat - 48
  else if 97 ≤ c.toNat ∧ c.toNat ≤ 102 then c.toNat - 87
  else 0

/-- `parseInt(s, 16)` on a valid hex character list. -/
def parseHex (l : List Char) : Nat := l.foldl (fun a c => 16 * a + hexDigitVal c) 0

end SHA256

namespace Fair

open SHA256

/-- The integer the code derives from a digest:
`parseInt(hash.substring(0, 8), 16)` where `hash` is the hex digest. -/
def hashNumOfDigest (digest : List Nat) : Nat :=
  parseHex ((hexChars digest).take 8)

/-- The spec's reading of the digest: its first 4 bytes as an unsigned
big-endian integer. -/
def firstFourBE (digest : List Nat) : Nat := beNum (digest.take 4)

/-- The final hash state of `sha256`. -/
def hFinal (msg : List Nat) : Hash8 := (blocks (pad msg)).foldl processBlock initH

/-- The inverse-exponential map and clamp shared by
`GameManager.calculateCrashPoint` (lines 296-300) and the `/verify` route
(lines 129-131): `uniform = hashNum / 0xFFFFFFFF`,
`crash = minCrash + Math.log(1 - uniform) / -0.1`,
result `Math.min(Math.max(crash, minCrash), maxCrash)`. -/
noncomputable def crashOfNum (minCrash maxCrash : ℝ) (n : Nat) : ℝ :=
  let uniform : ℝ := (n : ℝ) / 0xFFFFFFFF
  let crash : ℝ := minCrash + Real.log (1 - uniform) / (-0.1)
  min (max crash minCrash) maxCrash

/-- `GameManager.calculateCrashPoint(seed, roundId)`: HMAC-SHA256 with key
`process.env.PROVABLY_FAIR_SECRET || 'secret'` over `seed + roundId`, hex
digest, `parseInt(hash.substring(0, 8), 16)`, then the inverse-exponential
map clamped to the configured bounds. -/
noncomputable def calculateCrashPoint (envSecret : Option (List Nat))
    (minCrash maxCrash : ℝ) (seed roundId : List Nat) : ℝ :=
  let hash := hexChars (hmacSha256 (envSecret.getD (strBytes "secret")) (seed ++ roundId))
  let hashNum := parseHex (hash.take 8)
  crashOfNum minCrash maxCrash hashNum

/-- The spec's reference definition of `CrashPoint`: a keyed MAC digest over
`seed ‖ roundId`, the first 4 bytes of the digest as an unsigned big-endian
integer, `u = n / 0xFFFFFFFF`, `minCrash + ln(1-u) / -decayRate`, clamped
to `[minCrash, maxCrash]`. -/
noncomputable def specCrashPoint (secretKey : List Nat)
    (minCrash maxCrash decayRate : ℝ) (seed roundId : List Nat) : ℝ :=
  let d := hmacSha256 secretKey (seed ++ roundId)
  let n := firstFourBE d
  let u : ℝ := (n : ℝ) / 0xFFFFFFFF
  min (max (minCrash + Real.log (1 - u) / (-decayRate)) minCrash) maxCrash

/-- Round status values of the `GameRound` schema that the routes read. -/
inductive RStatus
  | waiting
  | active
  | crashed
deriving DecidableEq

/-- The fields of a stored `GameRound` that `POST /verify` reads. -/
structure StoredRound where
  seedHash : List Char
  crashPoint : ℝ
  status : RStatus

/-- `GameManager.hashSeed`: the SHA-256 hex digest of the seed. -/
def hashSeed (seed : List Nat) : List Char := hexChars (sha256 seed)

/-- The rejection responses of `POST /verify`. -/
inductive VerifyErr
  | missingFields
  | roundNotFound
  | roundNotCompleted
  | invalidSeed
deriving DecidableEq

/-- The request body of `POST /verify`; `none` models an absent field. -/
structure VerifyReq where
  roundId : Option (List Nat)
  seed : Option (List Nat)
  expectedCrashPoint : Option ℝ

open Classical in
/-- The `POST /verify` route of `routes/gameRoutes.js` up to the computed
`finalCrashPoint` (returned in `.ok`); the `valid` flag of its 200
response is `verifyValid` below.  `lookup` is the result of
`GameRound.findOne({ roundId })`.  The guard mirrors the code: missing or
falsy fields (empty strings, the number 0) are rejected first; then the
round must exist and be `crashed`; then the recomputed seed hash must
equal the stored `seedHash`; the crash point is recomputed with key
`process.env.PROVABLY_FAIR_SECRET || 'default-secret'` — note the default
differs from the engine's `'secret'`. -/
noncomputable def verifyRoute (envSecret : Option (List Nat))
    (minCrash maxCrash : ℝ) (req : VerifyReq) (lookup : Option StoredRound) :
    Except VerifyErr ℝ :=
  match req.roundId, req.seed, req.expectedCrashPoint with
  | some roundId, some seed, some expected =>
    if roundId = [] ∨ seed = [] ∨ expected = 0 then .error .missingFields
    else
      match lookup with
      | none => .error .roundNotFound
      | some round =>
        if round.status ≠ .crashed then .error .roundNotCompleted
        else if hexChars (sha256 seed) ≠ round.seedHash then .error .invalidSeed
        else
          .ok (crashOfNum minCrash maxCrash
            (parseHex ((hexChars (hmacSha256
              (envSecret.getD (strBytes "default-secret"))
              (seed ++ roundId))).take 8)))
  | _, _, _ => .error .missingFields

/-- The `valid` flag of the `/verify` 200 response:
`Math.abs(finalCrashPoint - round.crashPoint) < 0.01`. -/
def verifyValid (round : StoredRound) (finalCrashPoint : ℝ) : Prop :=
  |finalCrashPoint - round.crashPoint| < 0.01

/-- The round the engine itself stores for seed `"a"`, round id `"b"` under
the default configuration (no `PROVABLY_FAIR_SECRET` in the environment):
`seedHash = hashSeed(seed)`, `crashPoint = calculateCrashPoint(seed, roundId)`,
status `crashed` after the round ends. -/
noncomputable def bugRound : StoredRound :=
  { seedHash := hashSeed (strBytes "a")
  , crashPoint := calculateCrashPoint none 1.01 120 (strBytes "a") (strBytes "b")
  , status := .crashed }

/-- A round stored by the engine when `PROVABLY_FAIR_SECRET` is set to
`"k"` (so engine and route agree on the HMAC key), for seed `"a"` and
round id `"b"`. -/
noncomputable def keyedRound : StoredRound :=
  { seedHash := hashSeed (strBytes "a")
  , crashPoint :=
      calculateCrashPoint (some (strBytes "k")) 1.01 120 (strBytes "a") (strBytes "b")
  , status := .crashed }

end Fair

namespace Engine

/-- Supported cryptocurrencies (the `Player` wallet schema and the
WebSocket handler's validation list). -/
inductive Currency
  | BTC
  | ETH
  | USDT
deriving DecidableEq

/-- Round phases (`gameRoundSchema.status` values the engine writes). -/
inductive Status
  | waiting
  | active
  | crashed
deriving DecidableEq

/-- One entry of `round.bets`: the fields `placeBet` writes plus the
cashout fields `cashOut` mutates in place (`transactionHash` elided). -/
structure Bet where
  playerId : String
  usdAmount : ℚ
  cryptoAmount : ℚ
  cryptocurrency : Currency
  priceAtTime : ℚ
  cashedOut : Bool
  cashoutMultiplier : Option ℚ
  payout : Option (ℚ × ℚ)
deriving DecidableEq

/-- The in-memory current round (timestamps elided). -/
structure Round where
  roundId : String
  seed : String
  seedHash : String
  crashPoint : ℚ
  status : Status
  bets : List Bet
  maxMultiplier : ℚ
deriving DecidableEq

/-- A player's wallet (`playerSchema.wallet`). -/
structure Wallet where
  BTC : ℚ
  ETH : ℚ
  USDT : ℚ
deriving DecidableEq

def Wallet.get (w : Wallet) : Currency → ℚ
  | .BTC => w.BTC
  | .ETH => w.ETH
  | .USDT => w.USDT

def Wallet.set (w : Wallet) : Currency → ℚ → Wallet
  | .BTC, v => { w with BTC := v }
  | .ETH, v => { w with ETH := v }
  | .USDT, v => { w with USDT := v }

/-- A stored player (`playerSchema`; username elided). -/
structure Player where
  playerId : String
  wallet : Wallet
  totalGamesPlayed : ℚ
  totalWon : ℚ
  totalLost : ℚ
deriving DecidableEq

/-- The two kinds of `setTimeout` the engine schedules and never stores a
handle to: the betting-window transition to the game phase
(GameManager.js line 65) and the next-round creation (lines 126-128). -/
inductive TimerTask
  | startGame
  | nextRound
deriving DecidableEq

/-- `parseFloat(x.toFixed(2))`, as used in broadcast payloads. -/
def round2 (q : ℚ) : ℚ := (round (q * 100) : ℤ) / 100

/-- `parseFloat(x.toFixed(8))`. -/
def round8 (q : ℚ) : ℚ := (round (q * 100000000) : ℤ) / 100000000

/-- The socket broadcasts the engine emits, with the payload fields the
code sends. -/
inductive Emit
  | roundNew (roundId seedHash : String) (bettingEndsIn : ℚ)
  | roundStarted (roundId : String)
  | multiplierUpdate (roundId : String) (multiplier : ℚ)
  | betPlaced (roundId playerId : String) (usdAmount : ℚ) (cryptocurrency : Currency)
  | playerCashedout (roundId playerId : String) (multiplier payoutCrypto payoutUsd : ℚ)
      (cryptocurrency : Currency)
  | roundCrashed (roundId : String) (crashPoint finalMultiplier : ℚ)
deriving DecidableEq

/-- The `GameManager` state: its in-memory fields, the scheduled timers
made explicit (`multiplierInterval` is whether the `setInterval` is live,
`pendingTimeouts` the un-cancellable `setTimeout`s), the player store, and
the log of emitted broadcasts.  `gameStartTime` is elided: each tick takes
the elapsed time as an input. -/
structure GMState where
  currentRound : Option Round
  isGameActive : Bool
  currentMultiplier : ℚ
  multiplierInterval : Bool
  pendingTimeouts : List TimerTask
  players : List Player
  emits : List Emit
deriving DecidableEq

/-- `PlaceBet` rejections (`'Betting not allowed now'`,
`'Insufficient balance'`; a missing player also yields the latter). -/
inductive BetErr
  | bettingClosed
  | insufficientBalance
deriving DecidableEq

/-- `CashOut` rejections: `'Cannot cash out'` when the game is not
active, `'No active bet'` when every bet of the player is settled;
`missingPlayer` models the TypeError if `Player.findOne` returned null
after the bet was already marked. -/
inductive CashErr
  | roundNotActive
  | noActiveBet
  | missingPlayer
deriving DecidableEq

/-- `updatePlayerStats`: bump games played and won/lost totals. -/
def updatePlayerStats (db : List Player) (pid : String) (won : Bool)
    (amount : ℚ) : List Player :=
  db.map (fun p =>
    if p.playerId = pid then
      { p with totalGamesPlayed := p.totalGamesPlayed + 1,
               totalWon := if won then p.totalWon + amount else p.totalWon,
               totalLost := if won then p.totalLost else p.totalLost + amount }
    else p)

/-- `GameManager.endRound`: no-op if there is no round or it is already
crashed; otherwise mark the round crashed and record every un-cashed bet
as a loss in the player stats. -/
def endRound (s : GMState) : GMState :=
  match s.currentRound with
  | none => s
  | some r =>
    if r.status = .crashed then s
    else
      let db := r.bets.foldl
        (fun db b => if b.cashedOut then db
          else updatePlayerStats db b.playerId false b.usdAmount) s.players
      { s with currentRound := some { r with status := .crashed }, players := db }

/-- `GameManager.crashGame`: guard on `isGameActive` and `currentRound`,
clear the game flag and the multiplier interval, end the round, emit
`round:crashed` with `(roundId, crashPoint, finalMultiplier)`, and
schedule the next round's creation. -/
def crashGame (s : GMState) : GMState :=
  match s.currentRound, s.isGameActive with
  | some _, true =>
    let s1 := { s with isGameActive := false, multiplierInterval := false }
    let s2 := endRound s1
    match s2.currentRound with
    | none => s2
    | some r =>
      { s2 with
        emits := s2.emits ++ [.roundCrashed r.roundId r.crashPoint s2.currentMultiplier],
        pendingTimeouts := s2.pendingTimeouts ++ [.nextRound] }
  | _, _ => s

/-- `GameManager.updateMultiplier` at a given elapsed time (seconds):
`multiplier = 1 + timeElapsed * 0.1`, update the high-water mark, crash
if the crash point is reached, else broadcast the rounded multiplier. -/
def updateMultiplier (s : GMState) (timeElapsed : ℚ) : GMState :=
  match s.currentRound, s.isGameActive with
  | some r, true =>
    let m := 1 + timeElapsed * (1 / 10)
    let s' := { s with
      currentRound := some { r with maxMultiplier := max r.maxMultiplier m },
      currentMultiplier := m }
    if r.crashPoint ≤ m then crashGame s'
    else { s' with emits := s'.emits ++ [.multiplierUpdate r.roundId (round2 m)] }
  | _, _ => s

/-- `GameManager.startGamePhase`: no-op without a round; otherwise set the
game active at multiplier 1, mark the round active, start the multiplier
interval and emit `round:started`. -/
def startGamePhase (s : GMState) : GMState :=
  match s.currentRound with
  | none => s
  | some r =>
    { s with isGameActive := true, currentMultiplier := 1,
             currentRound := some { r with status := .active },
             multiplierInterval := true,
             emits := s.emits ++ [.roundStarted r.roundId] }

/-- `GameManager.startNewRound`: if a round is live, end it first; then
install a fresh waiting round, emit `round:new` with the seed hash and the
3000 ms betting window, and schedule the transition to the game phase. -/
def startNewRound (s : GMState) (roundId seed seedHash : String)
    (crashPoint : ℚ) : GMState :=
  let s0 := match s.currentRound, s.isGameActive with
    | some _, true => endRound s
    | _, _ => s
  { s0 with
    currentRound := some { roundId := roundId, seed := seed,
                           seedHash := seedHash, crashPoint := crashPoint,
                           status := .waiting, bets := [], maxMultiplier := 1 },
    pendingTimeouts := s0.pendingTimeouts ++ [.startGame],
    emits := s0.emits ++ [.roundNew roundId seedHash 3000] }

/-- `GameManager.stop`: `if (this.multiplierInterval) clearInterval(...)`
— nothing else is cancelled. -/
def stop (s : GMState) : GMState :=
  if s.multiplierInterval then { s with multiplierInterval := false } else s

/-- Delivery of the oldest pending `setTimeout`.  A `nextRound` task runs
`startNewRound` with the fresh round data supplied by its environment
(id, seed, hash, and the crash point derived by `calculateCrashPoint`). -/
def fireTimeout (s : GMState) (roundId seed seedHash : String)
    (crashPoint : ℚ) : GMState :=
  match s.pendingTimeouts with
  | [] => s
  | t :: rest =>
    let s' := { s with pendingTimeouts := rest }
    match t with
    | .startGame => startGamePhase s'
    | .nextRound => startNewRound s' roundId seed seedHash crashPoint


/-- `GameManager.placeBet(playerId, usdAmount, cryptocurrency)`.  The
price is the value `cryptoService.getPrice` resolved to.  Guard order as
in the code: betting window, then `Player.findOne` plus balance check
(a missing player also reads as `'Insufficient balance'`); on success
debit the wallet, append the bet, emit `bet:placed`, return the bet. -/
def placeBet (s : GMState) (playerId : String) (usdAmount : ℚ)
    (currency : Currency) (price : ℚ) : Except BetErr Bet × GMState :=
  match s.currentRound with
  | none => (.error .bettingClosed, s)
  | some r =>
    if r.status ≠ .waiting then (.error .bettingClosed, s)
    else
      let cryptoAmount := usdAmount / price
      match s.players.find? (fun p => p.playerId == playerId) with
      | none => (.error .insufficientBalance, s)
      | some player =>
        if player.wallet.get currency < cryptoAmount then
          (.error .insufficientBalance, s)
        else
          let bet : Bet :=
            { playerId := playerId, usdAmount := usdAmount,
              cryptoAmount := cryptoAmount, cryptocurrency := currency,
              priceAtTime := price, cashedOut := false,
              cashoutMultiplier := none, payout := none }
          let db := s.players.map (fun p =>
            if p.playerId = playerId then
              { p with
                wallet := p.wallet.set currency
                  (p.wallet.get currency - cryptoAmount) }
            else p)
          (.ok bet,
            { s with players := db,
                     currentRound := some { r with bets := r.bets ++ [bet] },
                     emits := s.emits ++
                       [.betPlaced r.roundId playerId usdAmount currency] })

/-- In-place settlement of the bet `cashOut`'s `find` located: the first
list entry with this player id and `cashedOut` false gets
`cashedOut := true`, `cashoutMultiplier` and `payout` in one mutation. -/
def settleFirst (pid : String) (mult : ℚ) : List Bet → List Bet
  | [] => []
  | b :: rest =>
    if b.playerId == pid && !b.cashedOut then
      { b with cashedOut := true, cashoutMultiplier := some mult,
               payout := some (b.cryptoAmount * mult,
                               b.cryptoAmount * mult * b.priceAtTime) } :: rest
    else b :: settleFirst pid mult rest

/-- `GameManager.cashOut(playerId)`: guard on `isGameActive` and
`currentRound`; find the first unsettled bet of the player; read the
current multiplier; mark the bet settled; credit the wallet; update the
win stats; emit `player:cashedout`.  Returns
`(multiplier, cryptoPayout, usdPayout)` on success. -/
def cashOut (s : GMState) (playerId : String) :
    Except CashErr (ℚ × ℚ × ℚ) × GMState :=
  match s.currentRound, s.isGameActive with
  | some r, true =>
    match r.bets.find? (fun b => b.playerId == playerId && !b.cashedOut) with
    | none => (.error .noActiveBet, s)
    | some bet =>
      let multiplier := s.currentMultiplier
      let cryptoPayout := bet.cryptoAmount * multiplier
      let usdPayout := cryptoPayout * bet.priceAtTime
      let s1 :=
        { s with
          currentRound :=
            some { r with bets := settleFirst playerId multiplier r.bets } }
      match s1.players.find? (fun p => p.playerId == playerId) with
      | none => (.error .missingPlayer, s1)
      | some _ =>
        let db := s1.players.map (fun p =>
          if p.playerId = playerId then
            { p with
              wallet := p.wallet.set bet.cryptocurrency
                (p.wallet.get bet.cryptocurrency + cryptoPayout) }
          else p)
        (.ok (multiplier, cryptoPayout, usdPayout),
          { s1 with players := updatePlayerStats db playerId true
                      (usdPayout - bet.usdAmount),
                    emits := s1.emits ++
                      [.playerCashedout r.roundId playerId (round2 multiplier)
                        (round8 cryptoPayout) (round2 usdPayout)
                        bet.cryptocurrency] })
  | _, _ => (.error .roundNotActive, s)

/-- The constructor state of `GameManager` (no round, inactive,
multiplier 1, no timers), over a given player store. -/
def initState (players : List Player) : GMState :=
  { currentRound := none, isGameActive := false, currentMultiplier := 1,
    multiplierInterval := false, pendingTimeouts := [], players := players,
    emits := [] }

/-- The states the running system can be in: the constructor state, the
single boot call of `start()` (made once, with no round present), timeout
deliveries, interval ticks (only while the interval is scheduled), player
requests, and `stop()`.  Round creations carry a crash point
`≥ 1.01` — `calculateCrashPoint` guarantees this for the default
configuration (`crashOfNum_mem_Icc`). -/
inductive Reachable : GMState → Prop
  | init (players : List Player) : Reachable (initState players)
  | boot (s : GMState) (roundId seed seedHash : String) (cp : ℚ)
      (hs : Reachable s) (hnone : s.currentRound = none)
      (hcp : (101 : ℚ) / 100 ≤ cp) :
      Reachable (startNewRound s roundId seed seedHash cp)
  | fire (s : GMState) (roundId seed seedHash : String) (cp : ℚ)
      (hs : Reachable s) (hcp : (101 : ℚ) / 100 ≤ cp) :
      Reachable (fireTimeout s roundId seed seedHash cp)
  | tick (s : GMState) (t : ℚ) (hs : Reachable s) (ht : 0 ≤ t)
      (hint : s.multiplierInterval = true) :
      Reachable (updateMultiplier s t)
  | bet (s : GMState) (pid : String) (usd : ℚ) (cur : Currency) (price : ℚ)
      (hs : Reachable s) :
      Reachable ((placeBet s pid usd cur price).2)
  | cash (s : GMState) (pid : String) (hs : Reachable s) :
      Reachable ((cashOut s pid).2)
  | halt (s : GMState) (hs : Reachable s) : Reachable (stop s)

end Engine

namespace Engine

/-- The fields of the `GET /round/:roundId` response
(`routes/gameRoutes.js` lines 70-86), timestamps elided; the seed is
included only for a crashed round. -/
structure RoundDetails where
  roundId : String
  crashPoint : ℚ
  seedHash : String
  status : Status
  maxMultiplier : ℚ
  totalBets : ℕ
  totalBetAmount : ℚ
  seed : Option String
deriving DecidableEq

/-- The `GET /round/:roundId` response for a found round. -/
def roundDetails (r : Round) : RoundDetails :=
  { roundId := r.roundId, crashPoint := r.crashPoint, seedHash := r.seedHash,
    status := r.status, maxMultiplier := r.maxMultiplier,
    totalBets := r.bets.length,
    totalBetAmount := (r.bets.map Bet.usdAmount).sum,
    seed := if r.status = .crashed then some r.seed else none }

/-- The balance `Player.findOne` would report for a player and currency
(0 if the player does not exist). -/
def balanceOf (db : List Player) (pid : String) (c : Currency) : ℚ :=
  match db.find? (fun p => p.playerId == pid) with
  | some p => p.wallet.get c
  | none => 0

/-- A demo player with the schema's default 1000 USDT starting balance. -/
def demoPlayer : Player :=
  { playerId := "p", wallet := { BTC := 0, ETH := 0, USDT := 1000 },
    totalGamesPlayed := 0, totalWon := 0, totalLost := 0 }

/-- Booted engine: one waiting round `"r1"` with crash point 2. -/
def demoWaiting : GMState := startNewRound (initState [demoPlayer]) "r1" "sd" "hs" 2

/-- `demoWaiting` after player `"p"` bets 10 USD in USDT at price 1. -/
def demoOneBet : GMState := (placeBet demoWaiting "p" 10 .USDT 1).2

/-- `demoOneBet` after a second, identical bet by the same player. -/
def demoTwoBets : GMState := (placeBet demoOneBet "p" 10 .USDT 1).2

/-- `demoTwoBets` after the betting-window timeout fired: game active at
multiplier 1. -/
def demoActive : GMState := fireTimeout demoTwoBets "x" "x" "x" 2

/-- `demoActive` after a tick at 20 s elapsed: multiplier 3 reaches crash
point 2, so the round crashed and the next round is scheduled. -/
def demoCrashed : GMState := updateMultiplier demoActive 20

/-- An active round, empty bets, seed `"s1"`. -/
def seedRound1 : Round :=
  { roundId := "r", seed := "s1", seedHash := "h", crashPoint := 2,
    status := .active, bets := [], maxMultiplier := 1 }

/-- The same round with the other seed `"s2"`. -/
def seedRound2 : Round :=
  { roundId := "r", seed := "s2", seedHash := "h", crashPoint := 2,
    status := .active, bets := [], maxMultiplier := 1 }

/-- An active engine state holding `seedRound1`. -/
def seedState1 : GMState :=
  { currentRound := some seedRound1, isGameActive := true,
    currentMultiplier := 1, multiplierInterval := true,
    pendingTimeouts := [], players := [], emits := [] }

/-- The same state holding `seedRound2`. -/
def seedState2 : GMState :=
  { currentRound := some seedRound2, isGameActive := true,
    currentMultiplier := 1, multiplierInterval := true,
    pendingTimeouts := [], players := [], emits := [] }

end Engine

deriving instance DecidableEq for Except

namespace Price

/-- `s.toUpperCase()` for ASCII strings. -/
def toUpperStr (s : String) : String := ⟨s.data.map Char.toUpper⟩

/-- One entry of `this.priceCache`. -/
structure CacheEntry where
  price : ℚ
  timestamp : ℚ
deriving DecidableEq

/-- `this.cryptoMapping`. -/
def cryptoMapping : String → Option String := fun c =>
  if c = "BTC" then some "bitcoin"
  else if c = "ETH" then some "ethereum"
  else if c = "USDT" then some "tether"
  else none

/-- The hard-coded fallback table used when the API fails. -/
def fallbackPrices : String → Option ℚ := fun c =>
  if c = "BTC" then some 45000
  else if c = "ETH" then some 3000
  else if c = "USDT" then some 1
  else none

/-- The `catch` block of `getPrice`: return the cached price regardless
of age, else the fallback price, else rethrow (`none`). -/
def catchBlock (cache : String → Option CacheEntry) (key : String) : Option ℚ :=
  match cache key with
  | some e => some e.price
  | none => fallbackPrices key

/-- Outcome of one `getPrice` call: the returned price (`none` models a
thrown error), the cache afterwards, and whether the external API was
called. -/
structure PriceResult where
  result : Option ℚ
  cache : String → Option CacheEntry
  apiCalled : Bool

/-- `CryptoService.getPrice(cryptocurrency)` at time `now`, with cache
time-to-live `timeout` and the external API modelled by `api`
(`none` = request failed or the price field was absent; a price of 0 is
falsy in the code and also lands in the catch block). -/
def getPrice (cache : String → Option CacheEntry) (now timeout : ℚ)
    (api : String → Option ℚ) (c : String) : PriceResult :=
  let key := toUpperStr c
  let fresh : Option ℚ :=
    match cache key with
    | some e => if now - e.timestamp < timeout then some e.price else none
    | none => none
  match fresh with
  | some p => ⟨some p, cache, false⟩
  | none =>
    if key = "USDT" then
      ⟨some 1, Function.update cache key (some ⟨1, now⟩), false⟩
    else
      match cryptoMapping key with
      | none => ⟨catchBlock cache key, cache, false⟩
      | some coinId =>
        match api coinId with
        | some p =>
          if p = 0 then ⟨catchBlock cache key, cache, true⟩
          else ⟨some p, Function.update cache key (some ⟨p, now⟩), true⟩
        | none => ⟨catchBlock cache key, cache, true⟩

end Price


namespace Engine

/-- The state invariant of the running engine: (1) while the game is
active the current round exists, is `active`, and the live multiplier is
still below the crash point; (2) every round carries a crash point
`≥ 1.01` and every settled bet records a multiplier below it; (3) before
the first round nothing is scheduled; (4) at most one `setTimeout` is
pending; (5)/(6) a pending betting-window (resp. next-round) timer implies
the game is inactive and the round is `waiting` (resp. `crashed`). -/
def Inv (s : GMState) : Prop :=
  (s.isGameActive = true →
    ∃ r, s.currentRound = some r ∧ r.status = .active ∧
      s.currentMultiplier < r.crashPoint) ∧
  (∀ r, s.currentRound = some r →
    (101 : ℚ) / 100 ≤ r.crashPoint ∧
    (∀ b ∈ r.bets, b.cashedOut = true →
      ∃ m, b.cashoutMultiplier = some m ∧ m < r.crashPoint)) ∧
  (s.currentRound = none → s.pendingTimeouts = [] ∧ s.isGameActive = false) ∧
  (s.pendingTimeouts = [] ∨ ∃ t, s.pendingTimeouts = [t]) ∧
  (TimerTask.startGame ∈ s.pendingTimeouts →
    s.isGameActive = false ∧ ∀ r, s.currentRound = some r → r.status = .waiting) ∧
  (TimerTask.nextRound ∈ s.pendingTimeouts →
    s.isGameActive = false ∧ ∀ r, s.currentRound = some r → r.status = .crashed)

end Engine


namespace Engine

/-- A bet of 10 USD (10 USDT at price 1) by player `"p"`, not yet
settled. -/
def demoBet : Bet :=
  { playerId := "p", usdAmount := 10, cryptoAmount := 10,
    cryptocurrency := .USDT, priceAtTime := 1, cashedOut := false,
    cashoutMultiplier := none, payout := none }

/-- A waiting round already holding `demoBet`. -/
def dupRound : Round :=
  { roundId := "r1", seed := "sd", seedHash := "hs", crashPoint := 2,
    status := .waiting, bets := [demoBet], maxMultiplier := 1 }

/-- A state in the betting window where `"p"` already holds a bet. -/
def dupState : GMState :=
  { currentRound := some dupRound, isGameActive := false,
    currentMultiplier := 1, multiplierInterval := false,
    pendingTimeouts := [.startGame], players := [demoPlayer], emits := [] }

end Engine


section SHA256Tests

/-- Known-answer test: SHA-256 of `"abc"`. -/
example :
    SHA256.hexChars (SHA256.sha256 (SHA256.strBytes "abc")) =
      "ba7816bf8f01cfea414140de5dae2223b00361a396177a9cb410ff61f20015ad".data := by
  decide

/-- Known-answer test: SHA-256 of `"a"` (seed hashing). -/
example :
    SHA256.hexChars (SHA256.sha256 (SHA256.strBytes "a")) =
      "ca978112ca1bbdcafac231b39a23dc4da786eff8147c4e72b9807785afee48bb".data := by
  decide

/-- Known-answer test: the first 8 hex chars of
HMAC-SHA256(`"secret"`, `"ab"`) parse to 2636947896. -/
example :
    SHA256.parseHex ((SHA256.hexChars
      (SHA256.hmacSha256 (SHA256.strBytes "secret") (SHA256.strBytes "ab"))).take 8) =
      2636947896 := by
  decide

end SHA256Tests

namespace Fair

open SHA256

theorem hexDigitVal_hexDigitChar {n : Nat} (h : n < 16) :
    hexDigitVal (hexDigitChar n) = n := by
  interval_cases n <;> decide

theorem hashNum_eq_firstFour_cons (b0 b1 b2 b3 : Nat) (rest : List Nat)
    (h0 : b0 < 256) (h1 : b1 < 256) (h2 : b2 < 256) (h3 : b3 < 256) :
    hashNumOfDigest (b0 :: b1 :: b2 :: b3 :: rest) =
      firstFourBE (b0 :: b1 :: b2 :: b3 :: rest) := by
  have ht : (hexChars (b0 :: b1 :: b2 :: b3 :: rest)).take 8 =
      [hexDigitChar (b0 / 16), hexDigitChar (b0 % 16),
       hexDigitChar (b1 / 16), hexDigitChar (b1 % 16),
       hexDigitChar (b2 / 16), hexDigitChar (b2 % 16),
       hexDigitChar (b3 / 16), hexDigitChar (b3 % 16)] := rfl
  have h4 : (b0 :: b1 :: b2 :: b3 :: rest).take 4 = [b0, b1, b2, b3] := rfl
  unfold hashNumOfDigest firstFourBE
  rw [ht, h4]
  simp only [parseHex, beNum, List.foldl_cons, List.foldl_nil]
  rw [hexDigitVal_hexDigitChar (show b0 / 16 < 16 by omega),
    hexDigitVal_hexDigitChar (show b0 % 16 < 16 by omega),
    hexDigitVal_hexDigitChar (show b1 / 16 < 16 by omega),
    hexDigitVal_hexDigitChar (show b1 % 16 < 16 by omega),
    hexDigitVal_hexDigitChar (show b2 / 16 < 16 by omega),
    hexDigitVal_hexDigitChar (show b2 % 16 < 16 by omega),
    hexDigitVal_hexDigitChar (show b3 / 16 < 16 by omega),
    hexDigitVal_hexDigitChar (show b3 % 16 < 16 by omega)]
  omega

theorem sha256_eq_cons (msg : List Nat) :
    sha256 msg =
      (hFinal msg).a / 2 ^ 24 % 256 :: (hFinal msg).a / 2 ^ 16 % 256 ::
      (hFinal msg).a / 2 ^ 8 % 256 :: (hFinal msg).a % 256 ::
      (wordBytes (hFinal msg).b ++ wordBytes (hFinal msg).c ++
       wordBytes (hFinal msg).d ++ wordBytes (hFinal msg).e ++
       wordBytes (hFinal msg).f ++ wordBytes (hFinal msg).g ++
       wordBytes (hFinal msg).h) := rfl

/-- On any SHA-256 digest, the code's `parseInt(hex.substring(0, 8), 16)`
equals the spec's first-4-bytes big-endian integer. -/
theorem hashNum_sha256 (msg : List Nat) :
    hashNumOfDigest (sha256 msg) = firstFourBE (sha256 msg) := by
  rw [sha256_eq_cons]
  exact hashNum_eq_firstFour_cons _ _ _ _ _
    (Nat.mod_lt _ (by norm_num)) (Nat.mod_lt _ (by norm_num))
    (Nat.mod_lt _ (by norm_num)) (Nat.mod_lt _ (by norm_num))

/-- The same refinement for HMAC digests. -/
theorem hashNum_hmac (key msg : List Nat) :
    hashNumOfDigest (hmacSha256 key msg) = firstFourBE (hmacSha256 key msg) := by
  unfold hmacSha256
  exact hashNum_sha256 _

/-- The clamp keeps `crashOfNum` inside `[minCrash, maxCrash]`. -/
theorem crashOfNum_mem_Icc (minCrash maxCrash : ℝ) (n : Nat)
    (h : minCrash ≤ maxCrash) :
    crashOfNum minCrash maxCrash n ∈ Set.Icc minCrash maxCrash := by
  unfold crashOfNum
  exact ⟨le_min (le_max_right _ _) h, min_le_right _ _⟩

/-- C1: for every seed, roundId and configured bounds,
`calculateCrashPoint` equals the spec's reference definition (keyed digest
over `seed ‖ roundId`, first 4 bytes big-endian, `u = n / 0xFFFFFFFF`,
`minCrash + ln(1-u) / -0.1`, clamp), and the result lies in
`[minCrash, maxCrash]`. -/
theorem calculateCrashPoint_correct (envSecret : Option (List Nat))
    (minCrash maxCrash : ℝ) (seed roundId : List Nat)
    (h : minCrash ≤ maxCrash) :
    calculateCrashPoint envSecret minCrash maxCrash seed roundId =
      specCrashPoint (envSecret.getD (strBytes "secret"))
        minCrash maxCrash 0.1 seed roundId ∧
    calculateCrashPoint envSecret minCrash maxCrash seed roundId ∈
      Set.Icc minCrash maxCrash := by
  constructor
  · show crashOfNum minCrash maxCrash
        (parseHex ((hexChars (hmacSha256 (envSecret.getD (strBytes "secret"))
          (seed ++ roundId))).take 8)) = _
    rw [show parseHex ((hexChars (hmacSha256 (envSecret.getD (strBytes "secret"))
          (seed ++ roundId))).take 8) =
        firstFourBE (hmacSha256 (envSecret.getD (strBytes "secret"))
          (seed ++ roundId)) from
      hashNum_hmac _ _]
    rfl
  · exact crashOfNum_mem_Icc minCrash maxCrash _ h

/-- Witness for `calculateCrashPoint_correct` at the default configuration
(`minCrash = 1.01`, `maxCrash = 120`, no environment secret) on the
concrete seed `"a"` and round id `"b"`. -/
theorem calculateCrashPoint_correct_witness :
    (1.01 : ℝ) ≤ 120 ∧
      (calculateCrashPoint none 1.01 120 (strBytes "a") (strBytes "b") =
        specCrashPoint (Option.getD none (strBytes "secret"))
          1.01 120 0.1 (strBytes "a") (strBytes "b") ∧
       calculateCrashPoint none 1.01 120 (strBytes "a") (strBytes "b") ∈
         Set.Icc (1.01 : ℝ) 120) :=
  ⟨by norm_num,
    calculateCrashPoint_correct none 1.01 120 (strBytes "a") (strBytes "b")
      (by norm_num)⟩

theorem one_sub_inv_le_log {x : ℝ} (hx : 0 < x) : 1 - x⁻¹ ≤ Real.log x := by
  have h := Real.log_le_sub_one_of_pos (inv_pos.mpr hx)
  rw [Real.log_inv] at h
  linarith

/-- When the uniform draw is not too close to 1, neither clamp bites and
the crash point is `1.01 - 10 · log(1 - u)` (default configuration). -/
theorem crashOfNum_unclamped (n : Nat)
    (hv : (1 : ℝ) / 12 ≤ 1 - (n : ℝ) / 0xFFFFFFFF) :
    crashOfNum 1.01 120 n = 1.01 - 10 * Real.log (1 - (n : ℝ) / 0xFFFFFFFF) := by
  have hrepr : crashOfNum 1.01 120 n =
      min (max (1.01 + Real.log (1 - (n : ℝ) / 0xFFFFFFFF) / (-0.1)) 1.01) 120 := rfl
  rw [hrepr]
  set v : ℝ := 1 - (n : ℝ) / 0xFFFFFFFF with hvdef
  clear_value v
  have hv0 : (0 : ℝ) < v := lt_of_lt_of_le (by norm_num) hv
  have hvle1 : v ≤ 1 := by
    have hn : (0 : ℝ) ≤ (n : ℝ) / 0xFFFFFFFF := by positivity
    rw [hvdef]; linarith
  have hlog0 : Real.log v ≤ 0 := Real.log_nonpos (le_of_lt hv0) hvle1
  have hlow : 1 - v⁻¹ ≤ Real.log v := one_sub_inv_le_log hv0
  have hinv : v⁻¹ ≤ 12 := by
    have h1 : (1 : ℝ) ≤ 12 * v := by linarith
    have h2 : v⁻¹ * v = 1 := inv_mul_cancel₀ (ne_of_gt hv0)
    nlinarith [inv_pos.mpr hv0]
  have hdiv : Real.log v / (-0.1) = -10 * Real.log v := by
    rw [div_eq_mul_inv, show ((-0.1 : ℝ))⁻¹ = -10 by norm_num]
    ring
  rw [hdiv, max_eq_left (by linarith), min_eq_left (by linarith)]
  ring

/-- The two crash points the default configuration produces for
seed `"a"`, round id `"b"` — engine (`'secret'`) versus `/verify`
(`'default-secret'`) — differ by at least the 0.01 tolerance. -/
theorem default_secret_gap :
    (0.01 : ℝ) ≤
      crashOfNum 1.01 120 3571692973 - crashOfNum 1.01 120 2636947896 := by
  rw [crashOfNum_unclamped 2636947896 (by norm_num),
    crashOfNum_unclamped 3571692973 (by norm_num)]
  set v1 : ℝ := 1 - (2636947896 : ℕ) / 0xFFFFFFFF with hv1def
  set v2 : ℝ := 1 - (3571692973 : ℕ) / 0xFFFFFFFF with hv2def
  clear_value v1 v2
  have hv1 : (0 : ℝ) < v1 := by rw [hv1def]; norm_num
  have hv2 : (0 : ℝ) < v2 := by rw [hv2def]; norm_num
  have hdivpos : (0 : ℝ) < v1 / v2 := div_pos hv1 hv2
  have hlow : 1 - (v1 / v2)⁻¹ ≤ Real.log (v1 / v2) := one_sub_inv_le_log hdivpos
  have hconc : Real.log (v1 / v2) = Real.log v1 - Real.log v2 :=
    Real.log_div (ne_of_gt hv1) (ne_of_gt hv2)
  have hval : (1 : ℝ) - (v1 / v2)⁻¹ ≥ 0.001 := by
    rw [inv_div, hv1def, hv2def]
    norm_num
  rw [hconc] at hlow
  linarith

/-- C2: with `PROVABLY_FAIR_SECRET` unset, verifying the engine's own
honest output fails: the engine derives the crash point with default HMAC
key `'secret'` (GameManager.js line 293) but `/verify` recomputes it with
default key `'default-secret'` (gameRoutes.js line 121), so on the round
the engine stored for seed `"a"` and round id `"b"` the route's
recomputation differs from the stored crash point by more than the 0.01
tolerance and the response carries `valid: false`, even though the seed
hash check passes. -/
theorem verify_roundTrip_fails_with_default_secrets :
    ∃ c : ℝ,
      verifyRoute none 1.01 120
        { roundId := some (strBytes "b"), seed := some (strBytes "a"),
          expectedCrashPoint :=
            some (calculateCrashPoint none 1.01 120 (strBytes "a") (strBytes "b")) }
        (some bugRound) = .ok c ∧
      ¬ verifyValid bugRound c := by
  have hn1 : parseHex ((hexChars (hmacSha256 (Option.getD none (strBytes "secret"))
      (strBytes "a" ++ strBytes "b"))).take 8) = 2636947896 := by decide
  have hcp : calculateCrashPoint none 1.01 120 (strBytes "a") (strBytes "b") =
      crashOfNum 1.01 120 2636947896 := congrArg (crashOfNum 1.01 120) hn1
  have hlo : (1.01 : ℝ) ≤ crashOfNum 1.01 120 2636947896 :=
    (crashOfNum_mem_Icc 1.01 120 2636947896 (by norm_num)).1
  have hguard : ¬ (strBytes "b" = [] ∨ strBytes "a" = [] ∨
      calculateCrashPoint none 1.01 120 (strBytes "a") (strBytes "b") = 0) := by
    rintro (h | h | h)
    · exact absurd h (by decide)
    · exact absurd h (by decide)
    · rw [hcp] at h
      linarith
  have hstat : ¬ (bugRound.status ≠ RStatus.crashed) := fun h => h rfl
  have hhash : ¬ (hexChars (sha256 (strBytes "a")) ≠ bugRound.seedHash) :=
    fun h => h rfl
  refine ⟨crashOfNum 1.01 120 3571692973, ?_, ?_⟩
  · simp only [verifyRoute]
    rw [if_neg hguard, if_neg hstat, if_neg hhash]
    exact congrArg (fun m => (Except.ok (crashOfNum 1.01 120 m) : Except VerifyErr ℝ))
      (by decide :
        parseHex ((hexChars (hmacSha256 (Option.getD none (strBytes "default-secret"))
          (strBytes "a" ++ strBytes "b"))).take 8) = 3571692973)
  · intro hvalid
    unfold verifyValid at hvalid
    rw [show bugRound.crashPoint =
        calculateCrashPoint none 1.01 120 (strBytes "a") (strBytes "b") from rfl,
      hcp] at hvalid
    have hgap := default_secret_gap
    have habs := le_abs_self
      (crashOfNum 1.01 120 3571692973 - crashOfNum 1.01 120 2636947896)
    linarith [abs_lt.mp hvalid]

/-- C7 counterexample: `/verify` never compares the recomputed crash point
against the claimed `expectedCrashPoint`.  With consistent secrets, a
request claiming an absurd crash point of 999 still verifies: the
response carries `valid: true` (the recomputation matches the *stored*
crash point), although the recomputed crash point is nowhere near the
claimed 999 and no `Mismatch` rejection occurs. -/
theorem verify_ignores_claimed_crashPoint :
    ∃ c : ℝ,
      verifyRoute (some (strBytes "k")) 1.01 120
        { roundId := some (strBytes "b"), seed := some (strBytes "a"),
          expectedCrashPoint := some 999 }
        (some keyedRound) = .ok c ∧
      verifyValid keyedRound c ∧
      ¬ (|c - (999 : ℝ)| < 0.01) := by
  have hguard : ¬ (strBytes "b" = [] ∨ strBytes "a" = [] ∨ (999 : ℝ) = 0) := by
    rintro (h | h | h)
    · exact absurd h (by decide)
    · exact absurd h (by decide)
    · norm_num at h
  have hstat : ¬ (keyedRound.status ≠ RStatus.crashed) := fun h => h rfl
  have hhash : ¬ (hexChars (sha256 (strBytes "a")) ≠ keyedRound.seedHash) :=
    fun h => h rfl
  refine ⟨crashOfNum 1.01 120
      (parseHex ((hexChars (hmacSha256
        (Option.getD (some (strBytes "k")) (strBytes "default-secret"))
        (strBytes "a" ++ strBytes "b"))).take 8)), ?_, ?_, ?_⟩
  · simp only [verifyRoute]
    rw [if_neg hguard, if_neg hstat, if_neg hhash]
  · show |_ - keyedRound.crashPoint| < 0.01
    rw [show keyedRound.crashPoint = crashOfNum 1.01 120
        (parseHex ((hexChars (hmacSha256
          (Option.getD (some (strBytes "k")) (strBytes "default-secret"))
          (strBytes "a" ++ strBytes "b"))).take 8)) from rfl]
    rw [sub_self, abs_zero]
    norm_num
  · intro habs
    have hhi : crashOfNum 1.01 120
        (parseHex ((hexChars (hmacSha256
          (Option.getD (some (strBytes "k")) (strBytes "default-secret"))
          (strBytes "a" ++ strBytes "b"))).take 8)) ≤ 120 :=
      (crashOfNum_mem_Icc 1.01 120 _ (by norm_num)).2
    have := abs_lt.mp habs
    linarith [this.1, this.2]

/-- C7 amended: on a well-formed request for an existing crashed round,
`/verify` fails with `InvalidSeed` exactly when the recomputed seed hash
does not match the stored `seedHash`; on success the returned crash point
is the recomputation with key
`process.env.PROVABLY_FAIR_SECRET || 'default-secret'`, and the response's
`valid` flag compares it (within absolute tolerance 0.01) against the
round's *stored* crash point — the claimed `expectedCrashPoint` is echoed
but never compared. -/
theorem verifyRoute_guard_spec (envSecret : Option (List Nat))
    (minCrash maxCrash : ℝ) (roundId seed : List Nat) (expected : ℝ)
    (round : StoredRound)
    (hrid : roundId ≠ []) (hseed : seed ≠ []) (hexp : expected ≠ 0)
    (hstatus : round.status = .crashed) :
    (verifyRoute envSecret minCrash maxCrash
        ⟨some roundId, some seed, some expected⟩ (some round) =
          .error .invalidSeed ↔ hexChars (sha256 seed) ≠ round.seedHash) ∧
    (∀ c, verifyRoute envSecret minCrash maxCrash
        ⟨some roundId, some seed, some expected⟩ (some round) = .ok c →
      hexChars (sha256 seed) = round.seedHash ∧
      c = crashOfNum minCrash maxCrash
        (parseHex ((hexChars (hmacSha256
          (envSecret.getD (strBytes "default-secret")) (seed ++ roundId))).take 8)) ∧
      (verifyValid round c ↔ |c - round.crashPoint| < 0.01)) := by
  have hguard : ¬ (roundId = [] ∨ seed = [] ∨ expected = 0) := by
    rintro (h | h | h)
    · exact hrid h
    · exact hseed h
    · exact hexp h
  have hstat : ¬ (round.status ≠ RStatus.crashed) := fun h => h hstatus
  simp only [verifyRoute]
  rw [if_neg hguard, if_neg hstat]
  by_cases hh : hexChars (sha256 seed) ≠ round.seedHash
  · rw [if_pos hh]
    exact ⟨⟨fun _ => hh, fun _ => rfl⟩, fun c hc => Except.noConfusion hc⟩
  · rw [if_neg hh]
    push_neg at hh
    refine ⟨⟨fun h => Except.noConfusion h, fun hcontra => absurd hh hcontra⟩,
      fun c hc => ?_⟩
    injection hc with hc'
    exact ⟨hh, hc'.symm, Iff.rfl⟩

/-- Witness for `verifyRoute_guard_spec` on the concrete crashed round
`keyedRound` with claimed crash point 999. -/
theorem verifyRoute_guard_spec_witness :
    (strBytes "b" ≠ [] ∧ strBytes "a" ≠ [] ∧ (999 : ℝ) ≠ 0 ∧
      keyedRound.status = .crashed) ∧
    ((verifyRoute (some (strBytes "k")) 1.01 120
        ⟨some (strBytes "b"), some (strBytes "a"), some 999⟩ (some keyedRound) =
          .error .invalidSeed ↔
            hexChars (sha256 (strBytes "a")) ≠ keyedRound.seedHash) ∧
     (∀ c, verifyRoute (some (strBytes "k")) 1.01 120
        ⟨some (strBytes "b"), some (strBytes "a"), some 999⟩ (some keyedRound) =
          .ok c →
       hexChars (sha256 (strBytes "a")) = keyedRound.seedHash ∧
       c = crashOfNum 1.01 120
         (parseHex ((hexChars (hmacSha256
           (Option.getD (some (strBytes "k")) (strBytes "default-secret"))
           (strBytes "a" ++ strBytes "b"))).take 8)) ∧
       (verifyValid keyedRound c ↔ |c - keyedRound.crashPoint| < 0.01))) :=
  ⟨⟨by decide, by decide, by norm_num, rfl⟩,
    verifyRoute_guard_spec (some (strBytes "k")) 1.01 120
      (strBytes "b") (strBytes "a") 999 keyedRound
      (by decide) (by decide) (by norm_num) rfl⟩

end Fair

namespace Engine

/-- C4 counterexample: with no duplicate-bet guard, a player can hold two
bets in one round, and then two sequential `CashOut` calls by that player
in the same round both succeed (each settles one bet). -/
theorem cashOut_at_most_once_cex :
    (cashOut demoActive "p").1 = .ok (1, 10, 10) ∧
    (cashOut (cashOut demoActive "p").2 "p").1 = .ok (1, 10, 10) ∧
    demoActive.currentRound.map Round.roundId = some "r1" ∧
    (cashOut demoActive "p").2.currentRound.map Round.roundId = some "r1" := by
  norm_num +decide [demoCrashed, demoActive, demoTwoBets, demoOneBet, demoWaiting, initState, demoPlayer, startNewRound, startGamePhase, endRound, crashGame, updateMultiplier, fireTimeout, stop, placeBet, cashOut, settleFirst, updatePlayerStats, balanceOf, Wallet.get, Wallet.set, seedState1, seedState2, seedRound1, seedRound2]

/-- C5 counterexample: `placeBet` has no duplicate-bet check.  With a bet
by `"p"` already outstanding in round `"r1"`, a second identical bet
succeeds (no `DuplicateBet` rejection), the round then holds two bets,
and the wallet is debited again (1000 → 990 → 980 USDT). -/
theorem duplicate_bet_accepted_cex :
    demoOneBet.currentRound.map
      (fun r => r.bets.any (fun b => b.playerId == "p")) = some true ∧
    (placeBet demoOneBet "p" 10 .USDT 1).1 =
      .ok { playerId := "p", usdAmount := 10, cryptoAmount := 10,
            cryptocurrency := .USDT, priceAtTime := 1, cashedOut := false,
            cashoutMultiplier := none, payout := none } ∧
    balanceOf demoOneBet.players "p" .USDT = 990 ∧
    balanceOf demoTwoBets.players "p" .USDT = 980 ∧
    demoTwoBets.currentRound.map (fun r => r.bets.length) = some 2 := by
  norm_num +decide [demoCrashed, demoActive, demoTwoBets, demoOneBet, demoWaiting, initState, demoPlayer, startNewRound, startGamePhase, endRound, crashGame, updateMultiplier, fireTimeout, stop, placeBet, cashOut, settleFirst, updatePlayerStats, balanceOf, Wallet.get, Wallet.set, seedState1, seedState2, seedRound1, seedRound2]

/-- C8 counterexample: `stop()` clears only the multiplier interval.  In
the crashed state the next-round `setTimeout` is still pending after
`stop()`, and when it fires a fresh round is created (and a new
betting-window timer scheduled) — the engine is not quiescent. -/
theorem stop_not_quiescent_cex :
    (stop demoCrashed).pendingTimeouts = [TimerTask.nextRound] ∧
    (stop demoCrashed).multiplierInterval = false ∧
    (fireTimeout (stop demoCrashed) "r2" "s2" "h2" 3).currentRound =
      some { roundId := "r2", seed := "s2", seedHash := "h2", crashPoint := 3,
             status := .waiting, bets := [], maxMultiplier := 1 } ∧
    (fireTimeout (stop demoCrashed) "r2" "s2" "h2" 3).pendingTimeouts =
      [TimerTask.startGame] := by
  norm_num +decide [demoCrashed, demoActive, demoTwoBets, demoOneBet, demoWaiting, initState, demoPlayer, startNewRound, startGamePhase, endRound, crashGame, updateMultiplier, fireTimeout, stop, placeBet, cashOut, settleFirst, updatePlayerStats, balanceOf, Wallet.get, Wallet.set, seedState1, seedState2, seedRound1, seedRound2]

/-- C8 amended: `stop()` cancels exactly the pending multiplier interval
(no tick fires afterwards) and changes nothing else — in particular the
pending `setTimeout`s survive. -/
theorem stop_clears_only_interval (s : GMState) :
    stop s = { s with multiplierInterval := false } := by
  cases s with
  | mk cr ga cm mi pt pl em => cases mi <;> simp [stop]

/-- C9 counterexample: the `round:crashed` broadcast does not carry the
seed.  Two states identical but for the round's seed produce identical
broadcasts, and the payload is exactly
`(roundId, crashPoint, finalMultiplier)`. -/
theorem roundCrashed_emit_lacks_seed_cex :
    seedRound1.seed ≠ seedRound2.seed ∧
    (updateMultiplier seedState1 20).emits = (updateMultiplier seedState2 20).emits ∧
    (updateMultiplier seedState1 20).emits = [.roundCrashed "r" 2 3] := by
  norm_num +decide [demoCrashed, demoActive, demoTwoBets, demoOneBet, demoWaiting, initState, demoPlayer, startNewRound, startGamePhase, endRound, crashGame, updateMultiplier, fireTimeout, stop, placeBet, cashOut, settleFirst, updatePlayerStats, balanceOf, Wallet.get, Wallet.set, seedState1, seedState2, seedRound1, seedRound2]

/-- C9 amended: the crash transition broadcasts
`(roundId, crashPoint, finalMultiplier)` — not the seed — and the
round-details endpoint reveals the seed exactly when the round's status
is `crashed`, never before. -/
theorem crash_broadcast_and_seed_gating :
    (∀ s r, s.currentRound = some r → s.isGameActive = true →
      r.status ≠ .crashed →
      (crashGame s).emits =
        s.emits ++ [.roundCrashed r.roundId r.crashPoint s.currentMultiplier]) ∧
    (∀ r, r.status ≠ .crashed → (roundDetails r).seed = none) ∧
    (∀ r, r.status = .crashed → (roundDetails r).seed = some r.seed) := by
  refine ⟨?_, ?_, ?_⟩
  · intro s r h hA hst
    cases s with
    | mk cr ga cm mi pt pl em =>
      simp only at h hA
      subst h hA
      simp [crashGame, endRound, if_neg hst]
  · intro r hst
    simp [roundDetails, if_neg hst]
  · intro r hst
    simp [roundDetails, if_pos hst]

/-- Witness for `crash_broadcast_and_seed_gating` on the concrete active
state `seedState1`. -/
theorem crash_broadcast_and_seed_gating_witness :
    (seedState1.currentRound = some seedRound1 ∧
      seedState1.isGameActive = true ∧ seedRound1.status ≠ Status.crashed) ∧
    (crashGame seedState1).emits =
      seedState1.emits ++ [.roundCrashed seedRound1.roundId
        seedRound1.crashPoint seedState1.currentMultiplier] :=
  ⟨⟨rfl, rfl, by decide⟩,
    crash_broadcast_and_seed_gating.1 seedState1 seedRound1 rfl rfl (by decide)⟩

end Engine

namespace Engine

theorem stop_eq (s : GMState) : stop s = { s with multiplierInterval := false } := by
  cases s with
  | mk cr ga cm mi pt pl em => cases mi <;> simp [stop]

theorem inv_initState (players : List Player) : Inv (initState players) := by
  refine ⟨?_, ?_, ?_, ?_, ?_, ?_⟩ <;> simp [initState]

theorem inv_stop (s : GMState) (h : Inv s) : Inv (stop s) := by
  rw [stop_eq]
  obtain ⟨h1, h2, h3, h4, h5, h6⟩ := h
  exact ⟨h1, h2, h3, h4, h5, h6⟩

/-- While the game is active no `setTimeout` is pending. -/
theorem active_no_timeouts (s : GMState) (h : Inv s)
    (hA : s.isGameActive = true) : s.pendingTimeouts = [] := by
  obtain ⟨-, -, -, h4, h5, h6⟩ := h
  rcases h4 with h4 | ⟨t, ht⟩
  · exact h4
  · cases t with
    | startGame =>
      have := (h5 (by simp [ht])).1
      rw [hA] at this
      cases this
    | nextRound =>
      have := (h6 (by simp [ht])).1
      rw [hA] at this
      cases this

end Engine

namespace Engine

theorem inv_startNewRound (s : GMState) (rid sd hsh : String) (cp : ℚ)
    (hga : s.isGameActive = false) (hto : s.pendingTimeouts = [])
    (hcp : (101 : ℚ) / 100 ≤ cp) :
    Inv (startNewRound s rid sd hsh cp) := by
  cases s with
  | mk cr ga cm mi pt pl em =>
    simp only at hga hto
    subst hga hto
    have hred : startNewRound (GMState.mk cr false cm mi [] pl em) rid sd hsh cp =
        { currentRound := some ⟨rid, sd, hsh, cp, .waiting, [], 1⟩,
          isGameActive := false, currentMultiplier := cm,
          multiplierInterval := mi, pendingTimeouts := [.startGame],
          players := pl, emits := em ++ [.roundNew rid hsh 3000] } := by
      cases cr <;> rfl
    rw [hred]
    refine ⟨?_, ?_, ?_, ?_, ?_, ?_⟩
    · intro hA; cases hA
    · intro r hr
      injection hr with hr
      subst hr
      exact ⟨hcp, by simp⟩
    · intro hnone; cases hnone
    · exact Or.inr ⟨_, rfl⟩
    · intro _
      refine ⟨rfl, ?_⟩
      intro r hr
      injection hr with hr
      subst hr
      rfl
    · intro hmem; simp at hmem

theorem inv_fireTimeout (s : GMState) (rid sd hsh : String) (cp : ℚ)
    (h : Inv s) (hcp : (101 : ℚ) / 100 ≤ cp) :
    Inv (fireTimeout s rid sd hsh cp) := by
  obtain ⟨h1, h2, h3, h4, h5, h6⟩ := h
  cases s with
  | mk cr ga cm mi pt pl em =>
    cases pt with
    | nil =>
      simp only [fireTimeout]
      exact ⟨h1, h2, h3, h4, h5, h6⟩
    | cons t rest =>
      have hrest : rest = [] := by
        rcases h4 with h4 | ⟨t', ht'⟩
        · cases h4
        · exact (List.cons.inj ht').2
      subst hrest
      cases t with
      | startGame =>
        obtain ⟨hga, hwait⟩ := h5 (by simp)
        simp only at hga
        subst hga
        show Inv (startGamePhase (GMState.mk cr false cm mi [] pl em))
        cases cr with
        | none =>
          refine ⟨?_, ?_, ?_, ?_, ?_, ?_⟩ <;> simp [startGamePhase]
        | some r =>
          have hcp' := (h2 r rfl).1
          have hbets := (h2 r rfl).2
          refine ⟨?_, ?_, ?_, ?_, ?_, ?_⟩
          · intro _
            refine ⟨{ r with status := .active }, rfl, rfl, ?_⟩
            show (1 : ℚ) < r.crashPoint
            linarith [show (1 : ℚ) < 101 / 100 by norm_num]
          · intro r' hr'
            injection hr' with hr'
            subst hr'
            exact ⟨hcp', hbets⟩
          · intro hnone; cases hnone
          · exact Or.inl rfl
          · intro hmem; simp [startGamePhase] at hmem
          · intro hmem; simp [startGamePhase] at hmem
      | nextRound =>
        obtain ⟨hga, -⟩ := h6 (by simp)
        simp only at hga
        subst hga
        show Inv (startNewRound (GMState.mk cr false cm mi [] pl em) rid sd hsh cp)
        exact inv_startNewRound _ _ _ _ _ rfl rfl hcp

end Engine

namespace Engine

theorem inv_crashGame (s : GMState) (r : Round)
    (hr : s.currentRound = some r) (hA : s.isGameActive = true)
    (hst : r.status ≠ .crashed) (hq : s.pendingTimeouts = [])
    (hcp : (101 : ℚ) / 100 ≤ r.crashPoint)
    (hbets : ∀ b ∈ r.bets, b.cashedOut = true →
      ∃ m, b.cashoutMultiplier = some m ∧ m < r.crashPoint) :
    Inv (crashGame s) := by
  cases s with
  | mk cr ga cm mi pt pl em =>
    simp only at hr hA hq
    subst hr hA hq
    have hred : crashGame (GMState.mk (some r) true cm mi [] pl em) =
        { currentRound := some { r with status := .crashed },
          isGameActive := false, currentMultiplier := cm,
          multiplierInterval := false,
          pendingTimeouts := [.nextRound],
          players := r.bets.foldl (fun db b => if b.cashedOut then db
            else updatePlayerStats db b.playerId false b.usdAmount) pl,
          emits := em ++ [.roundCrashed r.roundId r.crashPoint cm] } := by
      simp [crashGame, endRound, if_neg hst]
    rw [hred]
    refine ⟨?_, ?_, ?_, ?_, ?_, ?_⟩
    · intro hA; cases hA
    · intro r' hr'
      injection hr' with hr'
      subst hr'
      exact ⟨hcp, hbets⟩
    · intro hnone; cases hnone
    · exact Or.inr ⟨_, rfl⟩
    · intro hmem; simp at hmem
    · intro _
      refine ⟨rfl, ?_⟩
      intro r' hr'
      injection hr' with hr'
      subst hr'
      rfl

theorem inv_updateMultiplier (s : GMState) (t : ℚ) (h : Inv s) :
    Inv (updateMultiplier s t) := by
  obtain ⟨h1, h2, h3, h4, h5, h6⟩ := h
  cases s with
  | mk cr ga cm mi pt pl em =>
    cases cr with
    | none =>
      cases ga <;> exact ⟨h1, h2, h3, h4, h5, h6⟩
    | some r =>
      cases ga with
      | false => exact ⟨h1, h2, h3, h4, h5, h6⟩
      | true =>
        obtain ⟨r', hr', hst, hcm⟩ := h1 rfl
        injection hr' with hr'
        subst hr'
        dsimp only at h2 h3 h4 h5 h6
        have hq : pt = [] := by
          rcases h4 with h4 | ⟨t', ht'⟩
          · exact h4
          · cases t' with
            | startGame =>
              have := (h5 (by simp [ht'])).1
              cases this
            | nextRound =>
              have := (h6 (by simp [ht'])).1
              cases this
        subst hq
        simp only [updateMultiplier]
        by_cases hc : r.crashPoint ≤ 1 + t * (1 / 10)
        · rw [if_pos hc]
          refine inv_crashGame _ { r with maxMultiplier := max r.maxMultiplier (1 + t * (1 / 10)) }
            rfl rfl ?_ rfl (h2 r rfl).1 (h2 r rfl).2
          intro hcon
          rw [hst] at hcon
          cases hcon
        · rw [if_neg hc]
          refine ⟨?_, ?_, ?_, ?_, ?_, ?_⟩
          · intro _
            exact ⟨{ r with maxMultiplier := max r.maxMultiplier (1 + t * (1 / 10)) },
              rfl, hst, not_le.mp hc⟩
          · intro r' hr'
            injection hr' with hr'
            subst hr'
            exact ⟨(h2 r rfl).1, (h2 r rfl).2⟩
          · intro hnone; cases hnone
          · exact Or.inl rfl
          · intro hmem; simp at hmem
          · intro hmem; simp at hmem

end Engine

namespace Engine

theorem settleFirst_inv (pid : String) (m cp : ℚ) (bets : List Bet)
    (hP : ∀ b ∈ bets, b.cashedOut = true →
      ∃ mm, b.cashoutMultiplier = some mm ∧ mm < cp)
    (hm : m < cp) :
    ∀ b ∈ settleFirst pid m bets, b.cashedOut = true →
      ∃ mm, b.cashoutMultiplier = some mm ∧ mm < cp := by
  induction bets with
  | nil => simp [settleFirst]
  | cons a l ih =>
    simp only [settleFirst]
    by_cases hcond : (a.playerId == pid && !a.cashedOut) = true
    · rw [if_pos hcond]
      intro b hb hbc
      rcases List.mem_cons.mp hb with rfl | hbl
      · exact ⟨m, rfl, hm⟩
      · exact hP b (List.mem_cons_of_mem _ hbl) hbc
    · rw [if_neg hcond]
      intro b hb hbc
      rcases List.mem_cons.mp hb with rfl | hbl
      · exact hP b (List.mem_cons_self _ _) hbc
      · exact ih (fun b hb => hP b (List.mem_cons_of_mem _ hb)) b hbl hbc

theorem inv_placeBet (s : GMState) (pid : String) (usd : ℚ) (cur : Currency)
    (price : ℚ) (h : Inv s) : Inv ((placeBet s pid usd cur price).2) := by
  obtain ⟨h1, h2, h3, h4, h5, h6⟩ := h
  cases s with
  | mk cr ga cm mi pt pl em =>
    dsimp only at h1 h2 h3 h4 h5 h6
    cases cr with
    | none => exact ⟨h1, h2, h3, h4, h5, h6⟩
    | some r =>
      simp only [placeBet]
      by_cases hw : r.status ≠ .waiting
      · rw [if_pos hw]
        exact ⟨h1, h2, h3, h4, h5, h6⟩
      · rw [if_neg hw]
        rw [not_not] at hw
        rcases hfind : List.find? (fun p => p.playerId == pid) pl with _ | player
        · rw [hfind]
          exact ⟨h1, h2, h3, h4, h5, h6⟩
        · rw [hfind]
          dsimp only
          by_cases hbal : player.wallet.get cur < usd / price
          · rw [if_pos hbal]
            exact ⟨h1, h2, h3, h4, h5, h6⟩
          · rw [if_neg hbal]
            dsimp only
            refine ⟨?_, ?_, ?_, h4, ?_, ?_⟩
            · intro hA
              obtain ⟨r', hr', hst, -⟩ := h1 hA
              injection hr' with hr'
              subst hr'
              rw [hw] at hst
              cases hst
            · intro r' hr'
              injection hr' with hr'
              subst hr'
              dsimp only
              refine ⟨(h2 r rfl).1, ?_⟩
              intro b hb hbc
              rcases List.mem_append.mp hb with hb | hb
              · exact (h2 r rfl).2 b hb hbc
              · simp only [List.mem_singleton] at hb
                subst hb
                cases hbc
            · intro hnone; cases hnone
            · intro hmem
              refine ⟨(h5 hmem).1, ?_⟩
              intro r' hr'
              injection hr' with hr'
              subst hr'
              exact (h5 hmem).2 r rfl
            · intro hmem
              refine ⟨(h6 hmem).1, ?_⟩
              intro r' hr'
              injection hr' with hr'
              subst hr'
              exact (h6 hmem).2 r rfl

theorem inv_cashOut (s : GMState) (pid : String) (h : Inv s) :
    Inv ((cashOut s pid).2) := by
  obtain ⟨h1, h2, h3, h4, h5, h6⟩ := h
  cases s with
  | mk cr ga cm mi pt pl em =>
    dsimp only at h1 h2 h3 h4 h5 h6
    cases cr with
    | none => cases ga <;> exact ⟨h1, h2, h3, h4, h5, h6⟩
    | some r =>
      cases ga with
      | false => exact ⟨h1, h2, h3, h4, h5, h6⟩
      | true =>
        obtain ⟨r', hr', hst, hcm⟩ := h1 rfl
        injection hr' with hr'
        subst hr'
        simp only [cashOut]
        rcases hfind : List.find? (fun b => b.playerId == pid && !b.cashedOut) r.bets
          with _ | bet
        · rw [hfind]
          exact ⟨h1, h2, h3, h4, h5, h6⟩
        · rw [hfind]
          dsimp only
          rcases hp : List.find? (fun p => p.playerId == pid) pl with _ | player
          · rw [hp]
            dsimp only
            refine ⟨?_, ?_, ?_, h4, ?_, ?_⟩
            · intro _
              exact ⟨{ r with bets := settleFirst pid cm r.bets }, rfl, hst, hcm⟩
            · intro r' hr'
              injection hr' with hr'
              subst hr'
              exact ⟨(h2 r rfl).1, settleFirst_inv pid cm _ r.bets (h2 r rfl).2 hcm⟩
            · intro hnone; cases hnone
            · intro hmem
              exact absurd (h5 hmem).1 (by simp)
            · intro hmem
              exact absurd (h6 hmem).1 (by simp)
          · rw [hp]
            dsimp only
            refine ⟨?_, ?_, ?_, h4, ?_, ?_⟩
            · intro _
              exact ⟨{ r with bets := settleFirst pid cm r.bets }, rfl, hst, hcm⟩
            · intro r' hr'
              injection hr' with hr'
              subst hr'
              exact ⟨(h2 r rfl).1, settleFirst_inv pid cm _ r.bets (h2 r rfl).2 hcm⟩
            · intro hnone; cases hnone
            · intro hmem
              exact absurd (h5 hmem).1 (by simp)
            · intro hmem
              exact absurd (h6 hmem).1 (by simp)

/-- Every reachable engine state satisfies the invariant. -/
theorem inv_reachable (s : GMState) (h : Reachable s) : Inv s := by
  induction h with
  | init players => exact inv_initState players
  | boot s rid sd hsh cp hs hnone hcp ih =>
    exact inv_startNewRound s rid sd hsh cp (ih.2.2.1 hnone).2 (ih.2.2.1 hnone).1 hcp
  | fire s rid sd hsh cp hs hcp ih => exact inv_fireTimeout s rid sd hsh cp ih hcp
  | tick s t hs ht hint ih => exact inv_updateMultiplier s t ih
  | bet s pid usd cur price hs ih => exact inv_placeBet s pid usd cur price ih
  | cash s pid hs ih => exact inv_cashOut s pid ih
  | halt s hs ih => exact inv_stop s ih

end Engine

namespace Engine

/-- C3: in every reachable state, (a) if the current round's phase is not
`active` (never started, already crashed, or no round at all) a `CashOut`
fails with `RoundNotActive` and leaves the state — bets and wallets —
untouched; (b) a successful `CashOut` happens in an `active` round and
returns a multiplier strictly below the crash point; (c) after the call,
every settled bet of the current round records a cashout multiplier
strictly below the round's crash point. -/
theorem cashOut_phase_spec (s : GMState) (pid : String) (hreach : Reachable s) :
    ((∀ r, s.currentRound = some r → r.status ≠ .active) →
      (cashOut s pid).1 = .error .roundNotActive ∧ (cashOut s pid).2 = s) ∧
    (∀ m c u, (cashOut s pid).1 = .ok (m, c, u) →
      ∃ r, s.currentRound = some r ∧ r.status = .active ∧ m < r.crashPoint) ∧
    (∀ r' b, (cashOut s pid).2.currentRound = some r' → b ∈ r'.bets →
      b.cashedOut = true →
      ∃ mb, b.cashoutMultiplier = some mb ∧ mb < r'.crashPoint) := by
  obtain ⟨h1, h2, h3, h4, h5, h6⟩ := inv_reachable s hreach
  refine ⟨?_, ?_, ?_⟩
  · intro hna
    have hga : s.isGameActive = false := by
      cases hq : s.isGameActive
      · rfl
      · obtain ⟨r, hr, hst, -⟩ := h1 hq
        exact absurd hst (hna r hr)
    cases s with
    | mk cr ga cm mi pt pl em =>
      simp only at hga
      subst hga
      cases cr <;> exact ⟨rfl, rfl⟩
  · intro m c u hok
    cases s with
    | mk cr ga cm mi pt pl em =>
      cases cr with
      | none => cases ga <;> exact Except.noConfusion hok
      | some r =>
        cases ga with
        | false => exact Except.noConfusion hok
        | true =>
          obtain ⟨r', hr', hst, hcm⟩ := h1 rfl
          simp only at hr'
          injection hr' with hr'
          subst hr'
          simp only [cashOut] at hok
          rcases hfind : List.find? (fun b => b.playerId == pid && !b.cashedOut) r.bets
            with _ | bet
          · rw [hfind] at hok
            exact Except.noConfusion hok
          · rw [hfind] at hok
            dsimp only at hok
            rcases hp : List.find? (fun p => p.playerId == pid) pl with _ | player
            · rw [hp] at hok
              exact Except.noConfusion hok
            · rw [hp] at hok
              dsimp only at hok
              injection hok with hok
              have hm : m = cm := ((Prod.mk.injEq _ _ _ _).mp hok).1.symm
              subst hm
              exact ⟨r, rfl, hst, hcm⟩
  · intro r' b hr' hb hbc
    have hpost : Inv ((cashOut s pid).2) :=
      inv_cashOut s pid ⟨h1, h2, h3, h4, h5, h6⟩
    exact (hpost.2.1 r' hr').2 b hb hbc

/-- Witness for `cashOut_phase_spec` at the reachable constructor state
(no round yet): the cashout fails with `RoundNotActive` and changes
nothing. -/
theorem cashOut_phase_spec_witness :
    Reachable (initState []) ∧
    (((∀ r, (initState []).currentRound = some r → r.status ≠ .active) →
      (cashOut (initState []) "p").1 = .error .roundNotActive ∧
      (cashOut (initState []) "p").2 = initState []) ∧
    (∀ m c u, (cashOut (initState []) "p").1 = .ok (m, c, u) →
      ∃ r, (initState []).currentRound = some r ∧ r.status = .active ∧
        m < r.crashPoint) ∧
    (∀ r' b, (cashOut (initState []) "p").2.currentRound = some r' →
      b ∈ r'.bets → b.cashedOut = true →
      ∃ mb, b.cashoutMultiplier = some mb ∧ mb < r'.crashPoint)) :=
  ⟨Reachable.init [], cashOut_phase_spec (initState []) "p" (Reachable.init [])⟩

end Engine

namespace Engine

theorem Wallet.get_set (w : Wallet) (c : Currency) (v : ℚ) :
    (w.set c v).get c = v := by
  cases c <;> rfl

theorem find?_if_update (db : List Player) (pid : String) (g : Player → Player)
    (hg : ∀ p, (g p).playerId = p.playerId) :
    (db.map (fun p => if p.playerId = pid then g p else p)).find?
        (fun p => p.playerId == pid) =
      Option.map g (db.find? (fun p => p.playerId == pid)) := by
  induction db with
  | nil => rfl
  | cons a l ih =>
    simp only [List.map_cons]
    by_cases hid : a.playerId = pid
    · rw [if_pos hid]
      rw [List.find?_cons_of_pos _ (by simp [hg, hid]),
          List.find?_cons_of_pos _ (by simp [hid])]
      rfl
    · rw [if_neg hid]
      rw [List.find?_cons_of_neg _ (by simp [hid]),
          List.find?_cons_of_neg _ (by simp [hid])]
      exact ih

/-- C6: with the round in its betting window and the player looked up,
a `PlaceBet` whose wallet balance is below `cryptoAmount = usdAmount /
price` fails with `InsufficientBalance` and changes nothing; a successful
`PlaceBet` debits exactly `cryptoAmount` from that wallet, once, and the
resulting balance is never negative. -/
theorem placeBet_balance_spec (s : GMState) (pid : String) (usd : ℚ)
    (cur : Currency) (price : ℚ) (r : Round) (player : Player)
    (hr : s.currentRound = some r) (hw : r.status = .waiting)
    (hp : s.players.find? (fun p => p.playerId == pid) = some player) :
    (player.wallet.get cur < usd / price →
      (placeBet s pid usd cur price).1 = .error .insufficientBalance ∧
      (placeBet s pid usd cur price).2 = s) ∧
    (∀ bet, (placeBet s pid usd cur price).1 = .ok bet →
      bet.cryptoAmount = usd / price ∧
      balanceOf (placeBet s pid usd cur price).2.players pid cur =
        player.wallet.get cur - usd / price ∧
      0 ≤ balanceOf (placeBet s pid usd cur price).2.players pid cur) := by
  cases s with
  | mk cr ga cm mi pt pl em =>
    simp only at hr hp
    subst hr
    simp only [placeBet]
    rw [if_neg (fun hcon => hcon hw), hp]
    dsimp only
    by_cases hbal : player.wallet.get cur < usd / price
    · rw [if_pos hbal]
      exact ⟨fun _ => ⟨rfl, rfl⟩, fun bet hok => Except.noConfusion hok⟩
    · rw [if_neg hbal]
      dsimp only
      refine ⟨fun hcon => absurd hcon hbal, ?_⟩
      intro bet hok
      injection hok with hok
      subst hok
      have hupd := find?_if_update pl pid
        (fun p => { p with
          wallet := p.wallet.set cur (p.wallet.get cur - usd / price) })
        (fun p => rfl)
      refine ⟨rfl, ?_, ?_⟩
      · simp only [balanceOf, hupd, hp, Option.map_some']
        exact Wallet.get_set _ _ _
      · simp only [balanceOf, hupd, hp, Option.map_some']
        rw [Wallet.get_set]
        linarith [not_lt.mp hbal]

/-- Witness for `placeBet_balance_spec` on the concrete waiting state
`demoWaiting` (player `"p"`, 10 USD in USDT at price 1). -/
theorem placeBet_balance_spec_witness :
    (demoWaiting.currentRound =
      some { roundId := "r1", seed := "sd", seedHash := "hs", crashPoint := 2,
             status := .waiting, bets := [], maxMultiplier := 1 } ∧
     Status.waiting = Status.waiting ∧
     demoWaiting.players.find? (fun p => p.playerId == "p") = some demoPlayer) ∧
    ((demoPlayer.wallet.get .USDT < 10 / 1 →
      (placeBet demoWaiting "p" 10 .USDT 1).1 = .error .insufficientBalance ∧
      (placeBet demoWaiting "p" 10 .USDT 1).2 = demoWaiting) ∧
    (∀ bet, (placeBet demoWaiting "p" 10 .USDT 1).1 = .ok bet →
      bet.cryptoAmount = 10 / 1 ∧
      balanceOf (placeBet demoWaiting "p" 10 .USDT 1).2.players "p" .USDT =
        demoPlayer.wallet.get .USDT - 10 / 1 ∧
      0 ≤ balanceOf (placeBet demoWaiting "p" 10 .USDT 1).2.players "p" .USDT)) :=
  ⟨⟨rfl, rfl, rfl⟩,
    placeBet_balance_spec demoWaiting "p" 10 .USDT 1 _ demoPlayer rfl rfl rfl⟩

end Engine

namespace Engine

/-- C5 amended: there is no duplicate-bet check.  A `PlaceBet` by a player
who already holds an outstanding bet in the waiting round is accepted
exactly like a first bet (subject only to the balance check): it returns
`.ok`, appends a second bet for that player, and debits the wallet
again. -/
theorem second_bet_accepted (s : GMState) (pid : String) (usd : ℚ)
    (cur : Currency) (price : ℚ) (r : Round) (player : Player)
    (hr : s.currentRound = some r) (hw : r.status = .waiting)
    (hdup : ∃ b ∈ r.bets, b.playerId = pid)
    (hp : s.players.find? (fun p => p.playerId == pid) = some player)
    (hbal : ¬ player.wallet.get cur < usd / price) :
    ∃ bet, (placeBet s pid usd cur price).1 = .ok bet ∧
      bet.playerId = pid ∧
      (placeBet s pid usd cur price).2.currentRound =
        some { r with bets := r.bets ++ [bet] } ∧
      balanceOf (placeBet s pid usd cur price).2.players pid cur =
        player.wallet.get cur - usd / price := by
  cases s with
  | mk cr ga cm mi pt pl em =>
    simp only at hr hp
    subst hr
    simp only [placeBet]
    rw [if_neg (fun hcon => hcon hw), hp]
    dsimp only
    rw [if_neg hbal]
    dsimp only
    refine ⟨_, rfl, rfl, rfl, ?_⟩
    have hupd := find?_if_update pl pid
      (fun p => { p with
        wallet := p.wallet.set cur (p.wallet.get cur - usd / price) })
      (fun p => rfl)
    simp only [balanceOf, hupd, hp, Option.map_some']
    exact Wallet.get_set _ _ _

/-- Witness for `second_bet_accepted` on `dupState`, where `"p"` already
holds `demoBet`. -/
theorem second_bet_accepted_witness :
    (dupState.currentRound = some dupRound ∧
      dupRound.status = .waiting ∧
      (∃ b ∈ dupRound.bets, b.playerId = "p") ∧
      dupState.players.find? (fun p => p.playerId == "p") = some demoPlayer ∧
      ¬ demoPlayer.wallet.get .USDT < 10 / 1) ∧
    (∃ bet, (placeBet dupState "p" 10 .USDT 1).1 = .ok bet ∧
      bet.playerId = "p" ∧
      (placeBet dupState "p" 10 .USDT 1).2.currentRound =
        some { dupRound with bets := dupRound.bets ++ [bet] } ∧
      balanceOf (placeBet dupState "p" 10 .USDT 1).2.players "p" .USDT =
        demoPlayer.wallet.get .USDT - 10 / 1) :=
  ⟨⟨rfl, rfl, ⟨demoBet, List.mem_singleton_self demoBet, rfl⟩, rfl,
      by norm_num [demoPlayer, Wallet.get]⟩,
    second_bet_accepted dupState "p" 10 .USDT 1 dupRound demoPlayer rfl rfl
      ⟨demoBet, List.mem_singleton_self demoBet, rfl⟩ rfl
      (by norm_num [demoPlayer, Wallet.get])⟩

end Engine

namespace Engine

theorem find?_none_of_all_settled (pid : String) (bets : List Bet)
    (h : ∀ b ∈ bets, b.playerId = pid → b.cashedOut = true) :
    bets.find? (fun b => b.playerId == pid && !b.cashedOut) = none := by
  rw [List.find?_eq_none]
  intro b hb
  by_cases hpid : b.playerId = pid
  · have := h b hb hpid
    simp [this]
  · simp [hpid]

theorem settleFirst_keeps_settled (pid : String) (m : ℚ) (bets : List Bet) :
    ∀ b ∈ bets, b.cashedOut = true → b ∈ settleFirst pid m bets := by
  induction bets with
  | nil => simp
  | cons a l ih =>
    intro b hb hbc
    simp only [settleFirst]
    by_cases hcond : (a.playerId == pid && !a.cashedOut) = true
    · rw [if_pos hcond]
      rcases List.mem_cons.mp hb with rfl | hbl
      · simp [hbc] at hcond
      · exact List.mem_cons_of_mem _ hbl
    · rw [if_neg hcond]
      rcases List.mem_cons.mp hb with rfl | hbl
      · exact List.mem_cons_self _ _
      · exact List.mem_cons_of_mem _ (ih b hbl hbc)

theorem settleFirst_of_no_match (pid : String) (m : ℚ) (bets : List Bet)
    (h : ∀ b ∈ bets, (b.playerId == pid) = false) :
    settleFirst pid m bets = bets := by
  induction bets with
  | nil => rfl
  | cons a l ih =>
    simp only [settleFirst]
    rw [if_neg (by simp [h a (List.mem_cons_self _ _)]),
      ih (fun b hb => h b (List.mem_cons_of_mem _ hb))]

theorem find?_settleFirst_none (pid : String) (m : ℚ) (bets : List Bet)
    (hcount : (bets.filter (fun b => b.playerId == pid)).length ≤ 1) :
    (settleFirst pid m bets).find?
      (fun b => b.playerId == pid && !b.cashedOut) = none := by
  induction bets with
  | nil => rfl
  | cons a l ih =>
    by_cases hpid : (a.playerId == pid) = true
    · have hl : ∀ b ∈ l, (b.playerId == pid) = false := by
        intro b hb
        by_contra hbpid
        have hbmem : b ∈ l.filter (fun b => b.playerId == pid) :=
          List.mem_filter.mpr ⟨hb, by simpa using hbpid⟩
        rw [List.filter_cons, if_pos hpid] at hcount
        have h1 : 0 < (l.filter (fun b => b.playerId == pid)).length :=
          List.length_pos.mpr (fun hnil => by simp [hnil] at hbmem)
        simp only [List.length_cons] at hcount
        omega
      have hlnone : l.find? (fun b => b.playerId == pid && !b.cashedOut) = none := by
        rw [List.find?_eq_none]
        intro b hb
        simp [hl b hb]
      cases hca : a.cashedOut
      · simp only [settleFirst]
        rw [if_pos (by simp [hpid, hca])]
        rw [List.find?_cons_of_neg _ (by simp), hlnone]
      · simp only [settleFirst]
        rw [if_neg (by simp [hca])]
        rw [List.find?_cons_of_neg _ (by simp [hca]),
          settleFirst_of_no_match pid m l hl, hlnone]
    · have hpid' : (a.playerId == pid) = false := by
        simpa using hpid
      simp only [settleFirst]
      rw [if_neg (by simp [hpid'])]
      rw [List.find?_cons_of_neg _ (by simp [hpid'])]
      apply ih
      rw [List.filter_cons, if_neg (by simp [hpid'])] at hcount
      exact hcount

end Engine

namespace Engine

/-- C4 amended: settlement is at-most-once *per Bet*, not per player.
(i) When every bet of the player is already settled, `CashOut` fails with
`NoActiveBet` and changes nothing.  (ii) A settled bet is never modified
again: it survives any further `CashOut` verbatim.  (iii) On success the
round's bet list is exactly `settleFirst`: the single first unsettled bet
of the player receives `cashedOut := true`, `cashoutMultiplier` and
`payout` in one write.  (iv) When the player holds at most one bet in the
round, after a successful `CashOut` a second call fails with
`NoActiveBet` — but with several bets (possible, C5) each call settles
one bet, so two calls may both succeed. -/
theorem cashOut_at_most_once_per_bet (s : GMState) (pid : String) :
    (∀ r, s.currentRound = some r → s.isGameActive = true →
      (∀ b ∈ r.bets, b.playerId = pid → b.cashedOut = true) →
      cashOut s pid = (.error .noActiveBet, s)) ∧
    (∀ r r', s.currentRound = some r →
      (cashOut s pid).2.currentRound = some r' →
      ∀ b ∈ r.bets, b.cashedOut = true → b ∈ r'.bets) ∧
    (∀ r res, s.currentRound = some r → (cashOut s pid).1 = .ok res →
      (cashOut s pid).2.currentRound =
        some { r with bets := settleFirst pid s.currentMultiplier r.bets }) ∧
    (∀ r res, s.currentRound = some r →
      (r.bets.filter (fun b => b.playerId == pid)).length ≤ 1 →
      (cashOut s pid).1 = .ok res →
      (cashOut (cashOut s pid).2 pid).1 = .error .noActiveBet) := by
  cases s with
  | mk cr ga cm mi pt pl em =>
    refine ⟨?_, ?_, ?_, ?_⟩
    · intro r hr hA hall
      simp only at hr hA
      subst hr hA
      simp only [cashOut]
      rw [find?_none_of_all_settled pid r.bets hall]
    · intro r r' hr hpost b hb hbc
      simp only at hr
      subst hr
      cases ga with
      | false =>
        simp only [cashOut] at hpost
        injection hpost with hpost
        subst hpost
        exact hb
      | true =>
        simp only [cashOut] at hpost
        rcases hfind : List.find? (fun b => b.playerId == pid && !b.cashedOut) r.bets
          with _ | bet
        · rw [hfind] at hpost
          dsimp only at hpost
          injection hpost with hpost
          subst hpost
          exact hb
        · rw [hfind] at hpost
          dsimp only at hpost
          rcases hp : List.find? (fun p => p.playerId == pid) pl with _ | player
          · rw [hp] at hpost
            dsimp only at hpost
            injection hpost with hpost
            subst hpost
            exact settleFirst_keeps_settled pid cm r.bets b hb hbc
          · rw [hp] at hpost
            dsimp only at hpost
            injection hpost with hpost
            subst hpost
            exact settleFirst_keeps_settled pid cm r.bets b hb hbc
    · intro r res hr hok
      simp only at hr
      subst hr
      cases ga with
      | false => exact Except.noConfusion hok
      | true =>
        simp only [cashOut] at hok ⊢
        rcases hfind : List.find? (fun b => b.playerId == pid && !b.cashedOut) r.bets
          with _ | bet
        · rw [hfind] at hok
          exact Except.noConfusion hok
        · rw [hfind] at hok ⊢
          dsimp only at hok ⊢
          rcases hp : List.find? (fun p => p.playerId == pid) pl with _ | player
          · rw [hp] at hok
            exact Except.noConfusion hok
          · rw [hp] at hok ⊢
    · intro r res hr hcount hok
      simp only at hr
      subst hr
      cases ga with
      | false => exact Except.noConfusion hok
      | true =>
        simp only [cashOut] at hok ⊢
        rcases hfind : List.find? (fun b => b.playerId == pid && !b.cashedOut) r.bets
          with _ | bet
        · rw [hfind] at hok
          exact Except.noConfusion hok
        · rw [hfind] at hok ⊢
          dsimp only at hok ⊢
          rcases hp : List.find? (fun p => p.playerId == pid) pl with _ | player
          · rw [hp] at hok
            exact Except.noConfusion hok
          · rw [hp] at hok ⊢
            dsimp only
            rw [find?_settleFirst_none pid cm r.bets hcount]

/-- Witness for `cashOut_at_most_once_per_bet` at the active single-bet
state obtained by firing the betting-window timer on `dupState`. -/
theorem cashOut_at_most_once_per_bet_witness :
    ((fireTimeout dupState "x" "x" "x" 2).currentRound =
      some { dupRound with status := .active } ∧
     ((dupRound.bets.filter (fun b => b.playerId == "p")).length ≤ 1) ∧
     (cashOut (fireTimeout dupState "x" "x" "x" 2) "p").1 = .ok (1, 10, 10) ∧
     (cashOut (cashOut (fireTimeout dupState "x" "x" "x" 2) "p").2 "p").1 =
       .error .noActiveBet) := by
  have h := cashOut_at_most_once_per_bet (fireTimeout dupState "x" "x" "x" 2) "p"
  have hok : (cashOut (fireTimeout dupState "x" "x" "x" 2) "p").1 = .ok (1, 10, 10) := by
    norm_num +decide [fireTimeout, dupState, dupRound, demoBet, demoPlayer,
      startGamePhase, cashOut, settleFirst, updatePlayerStats, Wallet.get,
      Wallet.set]
  refine ⟨rfl, by decide, hok, ?_⟩
  exact h.2.2.2 { dupRound with status := .active } (1, 10, 10) rfl (by decide) hok

end Engine

namespace Price

/-- C10 counterexample: `if (!price) throw` only excludes 0 (and absent)
API prices; a negative price from the API is accepted, cached, and
returned, so `getPrice` does not always return a positive price. -/
theorem getPrice_negative_api_cex :
    (getPrice (fun _ => none) 0 10000 (fun _ => some (-5)) "BTC").result =
      some (-5) ∧
    ¬ (0 : ℚ) < -5 := by
  constructor
  · norm_num +decide [getPrice, toUpperStr, cryptoMapping]
  · norm_num

/-- Helper for the API-backed currencies: with `key` not USDT, a mapped
coin id and a positive fallback price, `getPrice` never throws, and it
returns a positive price whenever every cached and API price is
positive. -/
theorem getPrice_mapped (cache : String → Option CacheEntry)
    (now timeout : ℚ) (api : String → Option ℚ) (c key coinId : String)
    (fb : ℚ) (hkey : toUpperStr c = key) (hne : key ≠ "USDT")
    (hmap : cryptoMapping key = some coinId)
    (hfb : fallbackPrices key = some fb) (hfbpos : 0 < fb) :
    (getPrice cache now timeout api c).result ≠ none ∧
    ((∀ k e, cache k = some e → 0 < e.price) →
     (∀ cid p, api cid = some p → 0 < p) →
      ∃ p, (getPrice cache now timeout api c).result = some p ∧ 0 < p) := by
  rcases hc : cache key with _ | e
  · rcases ha : api coinId with _ | p
    · have hres : (getPrice cache now timeout api c).result = some fb := by
        simp only [getPrice, hkey, hc, hmap, ha, if_neg hne, catchBlock, hfb]
      exact ⟨by simp [hres], fun _ _ => ⟨fb, hres, hfbpos⟩⟩
    · by_cases hp0 : p = 0
      · have hres : (getPrice cache now timeout api c).result = some fb := by
          simp only [getPrice, hkey, hc, hmap, ha, if_neg hne, if_pos hp0,
            catchBlock, hfb]
        exact ⟨by simp [hres], fun _ _ => ⟨fb, hres, hfbpos⟩⟩
      · have hres : (getPrice cache now timeout api c).result = some p := by
          simp only [getPrice, hkey, hc, hmap, ha, if_neg hne, if_neg hp0]
        exact ⟨by simp [hres], fun _ hapi => ⟨p, hres, hapi coinId p ha⟩⟩
  · by_cases hfr : now - e.timestamp < timeout
    · have hres : (getPrice cache now timeout api c).result = some e.price := by
        simp only [getPrice, hkey, hc, if_pos hfr]
      exact ⟨by simp [hres], fun hcache _ => ⟨e.price, hres, hcache key e hc⟩⟩
    · rcases ha : api coinId with _ | p
      · have hres : (getPrice cache now timeout api c).result = some e.price := by
          simp only [getPrice, hkey, hc, if_neg hfr, if_neg hne, hmap, ha,
            catchBlock]
        exact ⟨by simp [hres], fun hcache _ => ⟨e.price, hres, hcache key e hc⟩⟩
      · by_cases hp0 : p = 0
        · have hres : (getPrice cache now timeout api c).result = some e.price := by
            simp only [getPrice, hkey, hc, if_neg hfr, if_neg hne, hmap, ha,
              if_pos hp0, catchBlock]
          exact ⟨by simp [hres], fun hcache _ => ⟨e.price, hres, hcache key e hc⟩⟩
        · have hres : (getPrice cache now timeout api c).result = some p := by
            simp only [getPrice, hkey, hc, if_neg hfr, if_neg hne, hmap, ha,
              if_neg hp0]
          exact ⟨by simp [hres], fun _ hapi => ⟨p, hres, hapi coinId p ha⟩⟩

/-- Helper: `getPrice` on USDT returns 1 without calling the API, as long
as any cached USDT entry holds price 1 — which is the only value
`getPrice` itself ever caches for USDT. -/
theorem getPrice_usdt (cache : String → Option CacheEntry)
    (now timeout : ℚ) (api : String → Option ℚ)
    (hinv : ∀ e, cache "USDT" = some e → e.price = 1) :
    (getPrice cache now timeout api "USDT").result = some 1 ∧
    (getPrice cache now timeout api "USDT").apiCalled = false := by
  have hkey : toUpperStr "USDT" = "USDT" := rfl
  rcases hc : cache "USDT" with _ | e
  · constructor <;>
      simp [getPrice, hkey, hc]
  · by_cases hfr : now - e.timestamp < timeout
    · constructor <;>
        simp [getPrice, hkey, hc, if_pos hfr, hinv e hc]
    · constructor <;>
        simp [getPrice, hkey, hc, if_neg hfr]

end Price

namespace Price

/-- Helper: `getPrice` writes nothing but price 1 under the USDT cache
key, so "every cached USDT price is 1" is preserved across calls. -/
theorem getPrice_preserves_usdt_cache (cache : String → Option CacheEntry)
    (now timeout : ℚ) (api : String → Option ℚ) (c : String)
    (hinv : ∀ e, cache "USDT" = some e → e.price = 1) :
    ∀ e, (getPrice cache now timeout api c).cache "USDT" = some e →
      e.price = 1 := by
  intro e
  by_cases hk : toUpperStr c = "USDT"
  · rcases hc : cache (toUpperStr c) with _ | ce
    · simp only [getPrice, hc, if_pos hk]
      rw [hk, Function.update_same]
      intro h
      injection h with h
      rw [← h]
    · by_cases hfr : now - ce.timestamp < timeout
      · simp only [getPrice, hc, if_pos hfr]
        exact hinv e
      · simp only [getPrice, hc, if_neg hfr, if_pos hk]
        rw [hk, Function.update_same]
        intro h
        injection h with h
        rw [← h]
  · have hne : ("USDT" : String) ≠ toUpperStr c := fun hcon => hk hcon.symm
    rcases hc : cache (toUpperStr c) with _ | ce
    · rcases hm : cryptoMapping (toUpperStr c) with _ | cid
      · simp only [getPrice, hc, if_neg hk, hm]
        exact hinv e
      · rcases ha : api cid with _ | p
        · simp only [getPrice, hc, if_neg hk, hm, ha]
          exact hinv e
        · by_cases hp0 : p = 0
          · simp only [getPrice, hc, if_neg hk, hm, ha, if_pos hp0]
            exact hinv e
          · simp only [getPrice, hc, if_neg hk, hm, ha, if_neg hp0]
            rw [Function.update_noteq hne]
            exact hinv e
    · by_cases hfr : now - ce.timestamp < timeout
      · simp only [getPrice, hc, if_pos hfr]
        exact hinv e
      · rcases hm : cryptoMapping (toUpperStr c) with _ | cid
        · simp only [getPrice, hc, if_neg hfr, if_neg hk, hm]
          exact hinv e
        · rcases ha : api cid with _ | p
          · simp only [getPrice, hc, if_neg hfr, if_neg hk, hm, ha]
            exact hinv e
          · by_cases hp0 : p = 0
            · simp only [getPrice, hc, if_neg hfr, if_neg hk, hm, ha, if_pos hp0]
              exact hinv e
            · simp only [getPrice, hc, if_neg hfr, if_neg hk, hm, ha, if_neg hp0]
              rw [Function.update_noteq hne]
              exact hinv e

/-- C10 amended: for the supported currencies BTC, ETH and USDT,
`getPrice` never throws (cache of any age, then fixed fallbacks
BTC 45000 / ETH 3000 / USDT 1, cover every failure path); it returns a
positive price *provided* every cached price and every price the external
API returns is positive (a negative API price would be passed through —
see the counterexample); on USDT it returns 1 without calling the API,
under the invariant — which `getPrice` itself preserves — that any cached
USDT entry holds price 1. -/
theorem getPrice_supported_spec (cache : String → Option CacheEntry)
    (now timeout : ℚ) (api : String → Option ℚ) :
    (∀ c, c = "BTC" ∨ c = "ETH" ∨ c = "USDT" →
      (getPrice cache now timeout api c).result ≠ none) ∧
    ((∀ k e, cache k = some e → 0 < e.price) →
     (∀ cid p, api cid = some p → 0 < p) →
      ∀ c, c = "BTC" ∨ c = "ETH" ∨ c = "USDT" →
        ∃ p, (getPrice cache now timeout api c).result = some p ∧ 0 < p) ∧
    ((∀ e, cache "USDT" = some e → e.price = 1) →
      (getPrice cache now timeout api "USDT").result = some 1 ∧
      (getPrice cache now timeout api "USDT").apiCalled = false) ∧
    ((∀ e, cache "USDT" = some e → e.price = 1) →
      ∀ c e, (getPrice cache now timeout api c).cache "USDT" = some e →
        e.price = 1) := by
  have hB := getPrice_mapped cache now timeout api "BTC" "BTC" "bitcoin" 45000
    rfl (by decide) rfl rfl (by norm_num)
  have hE := getPrice_mapped cache now timeout api "ETH" "ETH" "ethereum" 3000
    rfl (by decide) rfl rfl (by norm_num)
  have hUt : ∀ hcache : (∀ k e, cache k = some e → 0 < e.price),
      ∃ p, (getPrice cache now timeout api "USDT").result = some p ∧ 0 < p := by
    intro hcache
    have hkey : toUpperStr "USDT" = "USDT" := rfl
    rcases hc : cache "USDT" with _ | e
    · exact ⟨1, by simp [getPrice, hkey, hc], by norm_num⟩
    · by_cases hfr : now - e.timestamp < timeout
      · exact ⟨e.price, by simp [getPrice, hkey, hc, if_pos hfr],
          hcache "USDT" e hc⟩
      · exact ⟨1, by simp [getPrice, hkey, hc, if_neg hfr], by norm_num⟩
  refine ⟨?_, ?_, getPrice_usdt cache now timeout api,
    fun hinv c => getPrice_preserves_usdt_cache cache now timeout api c hinv⟩
  · rintro c (rfl | rfl | rfl)
    · exact hB.1
    · exact hE.1
    · have hkey : toUpperStr "USDT" = "USDT" := rfl
      rcases hc : cache "USDT" with _ | e
      · simp [getPrice, hkey, hc]
      · by_cases hfr : now - e.timestamp < timeout
        · simp [getPrice, hkey, hc, if_pos hfr]
        · simp [getPrice, hkey, hc, if_neg hfr]
  · rintro hcache hapi c (rfl | rfl | rfl)
    · exact hB.2 hcache hapi
    · exact hE.2 hcache hapi
    · exact hUt hcache

end Price

namespace Price

/-- Witness for `getPrice_supported_spec` with an empty cache and an API
returning 100 for every coin. -/
theorem getPrice_supported_spec_witness :
    ((getPrice (fun _ => none) 0 10000 (fun _ => some 100) "BTC").result ≠
      none) ∧
    (∃ p, (getPrice (fun _ => none) 0 10000 (fun _ => some 100) "BTC").result =
      some p ∧ 0 < p) ∧
    ((getPrice (fun _ => none) 0 10000 (fun _ => some 100) "USDT").result =
      some 1 ∧
     (getPrice (fun _ => none) 0 10000 (fun _ => some 100) "USDT").apiCalled =
      false) :=
  have h := getPrice_supported_spec (fun _ => none) 0 10000 (fun _ => some 100)
  ⟨h.1 "BTC" (Or.inl rfl),
   h.2.1 (fun _ _ hk => Option.noConfusion hk)
     (fun _ p hp => by
       injection hp with hp
       rw [← hp]
       norm_num) "BTC" (Or.inl rfl),
   h.2.2.1 (fun _ he => Option.noConfusion he)⟩

end Price
